import Mathlib

/-!
# Namespace deletion status conditions

A shallow embedding of `pkg/controller/namespace/deletion/status_condition_utils.go`
and the properties of its condition merger `updateConditions`.

Modelling conventions:

* a Go slice of conditions is a `List NamespaceCondition`;
* a Go pointer `*v1.NamespaceCondition` into a slice is an `Option Nat`: `none` is the nil
  pointer and `some i` is the address of element `i`; reading or writing through a pointer
  is `load` / `store`, which fail (`none`) on nil or on an index outside the slice;
* a function that could hit a nil dereference returns an `Option`, `none` being the panic;
* `metav1.Now()` is a reading of the wall clock, which the merger takes at most once per
  loop iteration: the clock is the parameter `now`, `now ct` being the reading in the
  iteration that handles condition type `ct`;
* a Go `map[K]string` is an association list, a missing key reading as the empty string.
-/

namespace Deletion

/-! ## The embedding of the source -/

/-- The `v1.NamespaceConditionType` of the Kubernetes API: a string type. -/
abbrev NamespaceConditionType := String

/-- The `v1.ConditionStatus` of the Kubernetes API: a string type. -/
abbrev ConditionStatus := String

/-- The `metav1.Time` of the Kubernetes API, as a point on a discrete time line. -/
abbrev Time := Nat

/-- Modelled from the spec: the constant `v1.NamespaceDeletionDiscoveryFailure` of
`k8s.io/api/core/v1` (not part of the sources at hand), the discovery-failure category.
The string is the one of the Kubernetes API; the proofs only use that the three category
constants are pairwise distinct. -/
def NamespaceDeletionDiscoveryFailure : NamespaceConditionType :=
  "NamespaceDeletionDiscoveryFailure"

/-- Modelled from the spec: the constant `v1.NamespaceDeletionGVParsingFailure` of
`k8s.io/api/core/v1` (not part of the sources at hand), the group-version-parsing-failure
category. -/
def NamespaceDeletionGVParsingFailure : NamespaceConditionType :=
  "NamespaceDeletionGroupVersionParsingFailure"

/-- Modelled from the spec: the constant `v1.NamespaceDeletionContentFailure` of
`k8s.io/api/core/v1` (not part of the sources at hand), the content-deletion-failure
category. -/
def NamespaceDeletionContentFailure : NamespaceConditionType :=
  "NamespaceDeletionContentFailure"

/-- Modelled from the spec: the constant `v1.ConditionTrue` of `k8s.io/api/core/v1`
(not part of the sources at hand), the failing state. -/
def ConditionTrue : ConditionStatus := "True"

/-- Modelled from the spec: the constant `v1.ConditionFalse` of `k8s.io/api/core/v1`
(not part of the sources at hand), the healthy state. -/
def ConditionFalse : ConditionStatus := "False"

/-- The struct `v1.NamespaceCondition`; the field `Type` is spelled `Type_`. -/
structure NamespaceCondition where
  Type_ : NamespaceConditionType
  Status : ConditionStatus
  LastProbeTime : Time
  LastTransitionTime : Time
  Reason : String
  Message : String
deriving DecidableEq, Repr

/-- The package variable `conditionTypes`: the condition types the controller maintains. -/
def conditionTypes : List NamespaceConditionType :=
  [NamespaceDeletionDiscoveryFailure,
   NamespaceDeletionGVParsingFailure,
   NamespaceDeletionContentFailure]

/-- The package variable `okMessages`, a Go map. -/
def okMessages : List (NamespaceConditionType × String) :=
  [(NamespaceDeletionDiscoveryFailure, "All resources successfully discovered"),
   (NamespaceDeletionGVParsingFailure, "All legacy kube types successfully parsed"),
   (NamespaceDeletionContentFailure, "All content successfully deleted")]

/-- The package variable `okReasons`, a Go map. -/
def okReasons : List (NamespaceConditionType × String) :=
  [(NamespaceDeletionDiscoveryFailure, "ResourcesDiscovered"),
   (NamespaceDeletionGVParsingFailure, "ParsedGroupVersions"),
   (NamespaceDeletionContentFailure, "ContentDeleted")]

/-- Indexing a Go `map[NamespaceConditionType]string`: a missing key reads as `""`. -/
def mapIndex (m : List (NamespaceConditionType × String)) (k : NamespaceConditionType) :
    String :=
  match m.lookup k with
  | some v => v
  | none => ""

/-- The function `getCondition`: the address of the first element of `conditions` whose
`Type` is `conditionType`, or nil. -/
def getCondition :
    List NamespaceCondition → NamespaceConditionType → Option Nat
  | [], _ => none
  | c :: conditions, conditionType =>
    if c.Type_ = conditionType then some 0
    else (getCondition conditions conditionType).map (· + 1)

/-- Reading through a pointer into `conditions`; `none` is a nil dereference. -/
def load (conditions : List NamespaceCondition) (p : Option Nat) :
    Option NamespaceCondition :=
  match p with
  | none => none
  | some i => conditions[i]?

/-- Writing through a pointer into `conditions`; `none` is a nil dereference. -/
def store (conditions : List NamespaceCondition) (p : Option Nat) (c : NamespaceCondition) :
    Option (List NamespaceCondition) :=
  match p with
  | none => none
  | some i => if i < conditions.length then some (conditions.set i c) else none

/-- The body of the loop of `updateConditions` for one `conditionType`, on the state
`(status.Conditions, hasChanged)`; `now` is the clock reading of this iteration. -/
def updateConditionsBody (now : Time) (newConditions : List NamespaceCondition)
    (conditionType : NamespaceConditionType) (st : List NamespaceCondition × Bool) :
    Option (List NamespaceCondition × Bool) :=
  let newCondition := getCondition newConditions conditionType
  let oldCondition := getCondition st.1 conditionType
  if newCondition = none ∧ oldCondition = none then
    -- both are nil, no update necessary
    some st
  else if oldCondition = none then
    -- only new condition of this type exists, add to the list
    (load newConditions newCondition).bind fun n =>
    some (st.1 ++ [n], true)
  else if newCondition = none then
    -- only old condition of this type exists, set status to false
    (load st.1 oldCondition).bind fun o =>
    if o.Status ≠ ConditionFalse then
      (store st.1 oldCondition
        { o with
          Status := ConditionFalse
          Message := mapIndex okMessages conditionType
          Reason := mapIndex okReasons conditionType
          LastTransitionTime := now }).bind fun conditions =>
      some (conditions, true)
    else some st
  else
    (load st.1 oldCondition).bind fun o =>
    (load newConditions newCondition).bind fun n =>
    if o.Message ≠ n.Message then
      -- old condition needs to be updated
      (store st.1 oldCondition
        { Type_ := n.Type_
          Status := n.Status
          LastProbeTime := n.LastProbeTime
          LastTransitionTime :=
            if o.Status ≠ n.Status then now else o.LastTransitionTime
          Reason := n.Reason
          Message := n.Message }).bind fun conditions =>
      some (conditions, true)
    else some st

/-- The loop of `updateConditions` over a list of condition types. -/
def updateConditionsLoop (now : NamespaceConditionType → Time)
    (newConditions : List NamespaceCondition) :
    List NamespaceConditionType → List NamespaceCondition × Bool →
      Option (List NamespaceCondition × Bool)
  | [], st => some st
  | conditionType :: rest, st =>
    (updateConditionsBody (now conditionType) newConditions conditionType st).bind
      (updateConditionsLoop now newConditions rest)

/-- The function `updateConditions`: `conditions` is `status.Conditions` on entry; the
result is `status.Conditions` on return together with `hasChanged`. -/
def updateConditions (now : NamespaceConditionType → Time)
    (conditions newConditions : List NamespaceCondition) :
    Option (List NamespaceCondition × Bool) :=
  updateConditionsLoop now newConditions conditionTypes (conditions, false)

/-- A non-nil Go `error` value handed to the builder, seen through what the builder reads
of it: the text `Error()` returns and, for a `*discovery.ErrGroupDiscoveryFailed` (a type
of `k8s.io/client-go/discovery`, not part of the sources at hand), `len(Groups)`. -/
inductive GoError
  | errGroupDiscoveryFailed (groups : Nat) (text : String)
  | other (text : String)
deriving DecidableEq, Repr

/-- The method `Error()` of a Go `error`. -/
def GoError.Error : GoError → String
  | .errGroupDiscoveryFailed _ text => text
  | .other text => text

/-- The struct `namespaceConditionUpdater`. -/
structure namespaceConditionUpdater where
  newConditions : List NamespaceCondition
  deleteContentErrors : List GoError
deriving DecidableEq, Repr

/-- The method `ProcessGroupVersionErr`; `now1` and `now2` are the two clock readings
`metav1.Now()` of its struct literal, in source order. -/
def ProcessGroupVersionErr (now1 now2 : Time) (u : namespaceConditionUpdater)
    (err : GoError) : namespaceConditionUpdater :=
  let d : NamespaceCondition :=
    { Type_ := NamespaceDeletionGVParsingFailure
      Status := ConditionTrue
      LastTransitionTime := now1
      LastProbeTime := now2
      Reason := "GroupVersionParsingFailed"
      Message := err.Error }
  { u with newConditions := u.newConditions ++ [d] }

/-- The method `ProcessDiscoverResourcesErr`; `%d` prints `len(derr.Groups)` in decimal
and `%v` prints `err.Error()`; `now1` and `now2` are the two clock readings. -/
def ProcessDiscoverResourcesErr (now1 now2 : Time) (u : namespaceConditionUpdater)
    (err : GoError) : namespaceConditionUpdater :=
  let msg : String :=
    match err with
    | .errGroupDiscoveryFailed groups _ =>
      "Discovery failed for some groups, " ++ toString groups ++ " failing: " ++ err.Error
    | .other _ => err.Error
  let d : NamespaceCondition :=
    { Type_ := NamespaceDeletionDiscoveryFailure
      Status := ConditionTrue
      LastTransitionTime := now1
      LastProbeTime := now2
      Reason := "DiscoveryFailed"
      Message := msg }
  { u with newConditions := u.newConditions ++ [d] }

/-- The method `ProcessDeleteContentErr`. -/
def ProcessDeleteContentErr (u : namespaceConditionUpdater) (err : GoError) :
    namespaceConditionUpdater :=
  { u with deleteContentErrors := u.deleteContentErrors ++ [err] }

/-- Lexicographic `<=` on sequences of code points. -/
def lexLe : List Nat → List Nat → Bool
  | [], _ => true
  | _ :: _, [] => false
  | a :: as, b :: bs => decide (a < b) || (decide (a = b) && lexLe as bs)

/-- The order `<=` of Go on strings: Go compares the bytes of the UTF-8 encodings, which
orders strings as the sequences of their code points are ordered. -/
def stringLe (a b : String) : Bool :=
  lexLe (a.data.map Char.toNat) (b.data.map Char.toNat)

/-- The library function `sort.Strings`: the strings in increasing order. -/
def sortStrings (msgs : List String) : List String :=
  msgs.insertionSort fun a b => stringLe a b = true

/-- The function `makeDeleteContentCondition`; the result is nil (`none`) or the address
of a new condition; `now1` and `now2` are the two clock readings of the struct literal, in
source order. -/
def makeDeleteContentCondition (now1 now2 : Time) (err : List GoError) :
    Option NamespaceCondition :=
  if err.length = 0 then none
  else
    let msgs := sortStrings (err.map GoError.Error)
    some
      { Type_ := NamespaceDeletionContentFailure
        Status := ConditionTrue
        LastProbeTime := now1
        LastTransitionTime := now2
        Reason := "ContentDeletionFailed"
        Message := "Failed to delete all resource types, " ++ toString err.length ++
          " remaining: " ++ ", ".intercalate msgs }

/-- The method `Update`, on the builder `u` and the list `ns.Status.Conditions`: the
builder and the list on return, and the returned flag; `now1` and `now2` are the clock
readings of `makeDeleteContentCondition` and `now` is the clock of `updateConditions`. -/
def Update (now1 now2 : Time) (now : NamespaceConditionType → Time)
    (u : namespaceConditionUpdater) (conditions : List NamespaceCondition) :
    Option (namespaceConditionUpdater × List NamespaceCondition × Bool) :=
  let u1 : namespaceConditionUpdater :=
    if getCondition u.newConditions NamespaceDeletionContentFailure = none then
      match makeDeleteContentCondition now1 now2 u.deleteContentErrors with
      | some c => { u with newConditions := u.newConditions ++ [c] }
      | none => u
    else u
  (updateConditions now conditions u1.newConditions).bind fun r =>
  some (u1, r.1, r.2)

/-! ## Definitions for the statements and proofs -/

/-- The value stored by the branch "only old condition of this type exists". -/
def clearedCondition (now : Time) (conditionType : NamespaceConditionType)
    (o : NamespaceCondition) : NamespaceCondition :=
  { o with
    Status := ConditionFalse
    Message := mapIndex okMessages conditionType
    Reason := mapIndex okReasons conditionType
    LastTransitionTime := now }

/-- The value stored by the branch "old condition needs to be updated". -/
def overwrittenCondition (now : Time) (o n : NamespaceCondition) : NamespaceCondition :=
  { Type_ := n.Type_
    Status := n.Status
    LastProbeTime := n.LastProbeTime
    LastTransitionTime := if o.Status ≠ n.Status then now else o.LastTransitionTime
    Reason := n.Reason
    Message := n.Message }

/-- The six paths through the loop body of `updateConditions`, as a relation between the
state before and the state after one iteration. -/
inductive BodyPath (now : Time) (newConditions : List NamespaceCondition)
    (t : NamespaceConditionType) (l : List NamespaceCondition) (ch : Bool) :
    List NamespaceCondition × Bool → Prop
  | bothNil :
      getCondition newConditions t = none → getCondition l t = none →
      BodyPath now newConditions t l ch (l, ch)
  | onlyNew (k : Nat) (n : NamespaceCondition) :
      getCondition newConditions t = some k → newConditions[k]? = some n →
      getCondition l t = none →
      BodyPath now newConditions t l ch (l ++ [n], true)
  | onlyOldFlip (i : Nat) (o : NamespaceCondition) :
      getCondition newConditions t = none →
      getCondition l t = some i → l[i]? = some o → o.Status ≠ ConditionFalse →
      BodyPath now newConditions t l ch (l.set i (clearedCondition now t o), true)
  | onlyOldKeep (i : Nat) (o : NamespaceCondition) :
      getCondition newConditions t = none →
      getCondition l t = some i → l[i]? = some o → o.Status = ConditionFalse →
      BodyPath now newConditions t l ch (l, ch)
  | bothOverwrite (i : Nat) (o : NamespaceCondition) (k : Nat) (n : NamespaceCondition) :
      getCondition newConditions t = some k → newConditions[k]? = some n →
      getCondition l t = some i → l[i]? = some o → o.Message ≠ n.Message →
      BodyPath now newConditions t l ch (l.set i (overwrittenCondition now o n), true)
  | bothKeep (i : Nat) (o : NamespaceCondition) (k : Nat) (n : NamespaceCondition) :
      getCondition newConditions t = some k → newConditions[k]? = some n →
      getCondition l t = some i → l[i]? = some o → o.Message = n.Message →
      BodyPath now newConditions t l ch (l, ch)

/-- A list is settled for type `t` against `new` when the loop body for `t` has nothing to
do on it: a new entry of type `t` meets a stored entry with the same message, and without
a new entry the stored entry, if any, has state `False`. -/
def Settled (new l : List NamespaceCondition) (t : NamespaceConditionType) : Prop :=
  (∀ k n, getCondition new t = some k → new[k]? = some n →
    ∃ i o, getCondition l t = some i ∧ l[i]? = some o ∧ o.Message = n.Message) ∧
  (getCondition new t = none →
    ∀ i o, getCondition l t = some i → l[i]? = some o → o.Status = ConditionFalse)

/-- Holds when no two entries of the list share a `Type`: at most one entry per type. -/
def singleEntryPerType (l : List NamespaceCondition) : Prop :=
  (l.map NamespaceCondition.Type_).Nodup

instance (l : List NamespaceCondition) : Decidable (singleEntryPerType l) :=
  inferInstanceAs (Decidable (l.map NamespaceCondition.Type_).Nodup)

/-- A finite sequence of merges into one condition list, each merge with its own clock and
its own new list; the flags are dropped. -/
def updateConditionsSeq :
    List ((NamespaceConditionType → Time) × List NamespaceCondition) →
      List NamespaceCondition → Option (List NamespaceCondition)
  | [], l => some l
  | (now, new) :: rest, l =>
    (updateConditions now l new).bind fun r => updateConditionsSeq rest r.1

/-- The zero value `namespaceConditionUpdater{}`: a fresh builder. -/
def freshUpdater : namespaceConditionUpdater :=
  { newConditions := [], deleteContentErrors := [] }

/-- One report call of a reconciliation pass, with the clock readings its body takes. -/
inductive Report
  | discoverResourcesErr (now1 now2 : Time) (err : GoError)
  | groupVersionErr (now1 now2 : Time) (err : GoError)
  | deleteContentErr (err : GoError)
deriving DecidableEq, Repr

/-- Runs one report call on a builder. -/
def Report.run : Report → namespaceConditionUpdater → namespaceConditionUpdater
  | .discoverResourcesErr now1 now2 err, u => ProcessDiscoverResourcesErr now1 now2 u err
  | .groupVersionErr now1 now2 err, u => ProcessGroupVersionErr now1 now2 u err
  | .deleteContentErr err, u => ProcessDeleteContentErr u err

/-- Runs a sequence of report calls on a builder, in order. -/
def runReports (calls : List Report) (u : namespaceConditionUpdater) :
    namespaceConditionUpdater :=
  calls.foldl (fun v call => call.run v) u

/-- The condition that a report call appends to the derived list of a builder, if it
appends one: what the call leaves in a fresh builder. -/
def Report.derived (call : Report) : Option NamespaceCondition :=
  (call.run freshUpdater).newConditions.head?

/-- The error that a report call appends to the collected content errors, if any. -/
def Report.collected (call : Report) : Option GoError :=
  (call.run freshUpdater).deleteContentErrors.head?

/-- Holds of the calls of `ProcessDiscoverResourcesErr`. -/
def Report.isDiscoverResourcesErr : Report → Bool
  | .discoverResourcesErr _ _ _ => true
  | _ => false

/-- Holds of the calls of `ProcessGroupVersionErr`. -/
def Report.isGroupVersionErr : Report → Bool
  | .groupVersionErr _ _ _ => true
  | _ => false

/-- Holds of the calls of `ProcessDeleteContentErr`. -/
def Report.isDeleteContentErr : Report → Bool
  | .deleteContentErr _ => true
  | _ => false

/-- The builder after the first statement of `Update`, which derives the content
condition unless the derived list already holds one. -/
def withContentCondition (now1 now2 : Time) (u : namespaceConditionUpdater) :
    namespaceConditionUpdater :=
  if getCondition u.newConditions NamespaceDeletionContentFailure = none then
    match makeDeleteContentCondition now1 now2 u.deleteContentErrors with
    | some c => { u with newConditions := u.newConditions ++ [c] }
    | none => u
  else u

/-- The number of entries of a list that have the given `Type`. -/
def countType (l : List NamespaceCondition) (t : NamespaceConditionType) : Nat :=
  l.countP fun c => decide (c.Type_ = t)

/-- What the order-independence of the content condition compares: every field of a
condition but its two timestamps. -/
def NamespaceCondition.content (c : NamespaceCondition) :
    NamespaceConditionType × ConditionStatus × String × String :=
  (c.Type_, c.Status, c.Reason, c.Message)

/-! ## Example data -/

/-- A clock that reads 9 in every iteration, for the examples. -/
def exampleClock : NamespaceConditionType → Time := fun _ => 9

/-- A failing discovery condition, for the examples. -/
def exampleDiscovery : NamespaceCondition :=
  { Type_ := NamespaceDeletionDiscoveryFailure
    Status := ConditionTrue
    LastProbeTime := 1
    LastTransitionTime := 2
    Reason := "DiscoveryFailed"
    Message := "x" }

/-- A failing content condition with message `M1`, for the examples. -/
def exampleContentM1 : NamespaceCondition :=
  { Type_ := NamespaceDeletionContentFailure
    Status := ConditionTrue
    LastProbeTime := 3
    LastTransitionTime := 4
    Reason := "ContentDeletionFailed"
    Message := "M1" }

/-- A failing content condition with message `M2`, derived later, for the examples. -/
def exampleContentM2 : NamespaceCondition :=
  { Type_ := NamespaceDeletionContentFailure
    Status := ConditionTrue
    LastProbeTime := 5
    LastTransitionTime := 6
    Reason := "ContentDeletionFailed"
    Message := "M2" }

/-- A healthy content condition that carries the message `M1`, for the examples. -/
def exampleContentHealthyM1 : NamespaceCondition :=
  { Type_ := NamespaceDeletionContentFailure
    Status := ConditionFalse
    LastProbeTime := 7
    LastTransitionTime := 8
    Reason := "Other"
    Message := "M1" }

/-- Replaces the `LastTransitionTime` of every entry of a list. -/
def withTransitionTimes (f : NamespaceCondition → Time) (l : List NamespaceCondition) :
    List NamespaceCondition :=
  l.map fun c => { c with LastTransitionTime := f c }

/-! ## Facts about `getCondition` -/

theorem getCondition_lt {l : List NamespaceCondition} {t : NamespaceConditionType} {i : Nat}
    (h : getCondition l t = some i) : i < l.length := by
  induction l generalizing i with
  | nil => simp [getCondition] at h
  | cons c cs ih =>
    unfold getCondition at h
    split at h
    · cases h; simp
    · cases hq : getCondition cs t with
      | none => simp [hq] at h
      | some k =>
        simp [hq] at h
        subst h
        have := ih hq
        simp only [List.length_cons]
        omega

theorem getCondition_type {l : List NamespaceCondition} {t : NamespaceConditionType} {i : Nat}
    {c : NamespaceCondition} (h : getCondition l t = some i) (hc : l[i]? = some c) :
    c.Type_ = t := by
  induction l generalizing i with
  | nil => simp [getCondition] at h
  | cons d ds ih =>
    unfold getCondition at h
    split at h
    · cases h
      simp at hc
      subst hc
      assumption
    · cases hq : getCondition ds t with
      | none => simp [hq] at h
      | some k =>
        simp [hq] at h
        subst h
        simp at hc
        exact ih hq hc

theorem getCondition_eq_none {l : List NamespaceCondition} {t : NamespaceConditionType} :
    getCondition l t = none ↔ ∀ c ∈ l, c.Type_ ≠ t := by
  induction l with
  | nil => simp [getCondition]
  | cons d ds ih =>
    unfold getCondition
    by_cases hd : d.Type_ = t
    · simp [hd]
    · simp [hd, ih]

/-- The lookup only reads the `Type` fields. -/
theorem getCondition_congr {l l' : List NamespaceCondition}
    (h : l.map (·.Type_) = l'.map (·.Type_)) (t : NamespaceConditionType) :
    getCondition l t = getCondition l' t := by
  induction l generalizing l' with
  | nil =>
    cases l' with
    | nil => rfl
    | cons => simp at h
  | cons d ds ih =>
    cases l' with
    | nil => simp at h
    | cons e es =>
      simp at h
      unfold getCondition
      rw [h.1, ih h.2]

theorem getCondition_append_of_some {l : List NamespaceCondition} {t : NamespaceConditionType}
    {i : Nat} (h : getCondition l t = some i) (l' : List NamespaceCondition) :
    getCondition (l ++ l') t = some i := by
  induction l generalizing i with
  | nil => simp [getCondition] at h
  | cons d ds ih =>
    simp only [List.cons_append]
    unfold getCondition at h ⊢
    split
    · rename_i hd
      simpa [hd] using h
    · rename_i hd
      simp only [hd, if_false] at h
      cases hq : getCondition ds t with
      | none => simp [hq] at h
      | some k =>
        rw [ih hq]
        simpa [hq] using h

theorem getCondition_cons (c : NamespaceCondition) (cs : List NamespaceCondition)
    (t : NamespaceConditionType) :
    getCondition (c :: cs) t =
      if c.Type_ = t then some 0 else (getCondition cs t).map (· + 1) := rfl

theorem getCondition_append_of_none {l : List NamespaceCondition} {t : NamespaceConditionType}
    (h : getCondition l t = none) (l' : List NamespaceCondition) :
    getCondition (l ++ l') t = (getCondition l' t).map (· + l.length) := by
  induction l with
  | nil => simp
  | cons d ds ih =>
    simp only [List.cons_append]
    rw [getCondition_cons] at h ⊢
    by_cases hd : d.Type_ = t
    · simp [hd] at h
    · simp only [hd, if_false] at h ⊢
      cases hq : getCondition ds t with
      | some k => simp [hq] at h
      | none =>
        rw [ih hq]
        cases getCondition l' t with
        | none => simp
        | some k =>
          simp only [Option.map_some', List.length_cons]
          congr 1

theorem getCondition_getElem {l : List NamespaceCondition} {t : NamespaceConditionType}
    {i : Nat} (h : getCondition l t = some i) : ∃ c, l[i]? = some c ∧ c.Type_ = t := by
  have hlt := getCondition_lt h
  refine ⟨l[i], List.getElem?_eq_getElem hlt, ?_⟩
  exact getCondition_type h (List.getElem?_eq_getElem hlt)

theorem getCondition_withTransitionTimes (f : NamespaceCondition → Time)
    (l : List NamespaceCondition) (t : NamespaceConditionType) :
    getCondition (withTransitionTimes f l) t = getCondition l t := by
  apply getCondition_congr
  simp [withTransitionTimes, List.map_map, Function.comp_def]

/-! ## The loop body -/

theorem updateConditionsBody_bothNil {now : Time} {new : List NamespaceCondition}
    {t : NamespaceConditionType} {l : List NamespaceCondition} {ch : Bool}
    (hn : getCondition new t = none) (ho : getCondition l t = none) :
    updateConditionsBody now new t (l, ch) = some (l, ch) := by
  simp [updateConditionsBody, hn, ho]

theorem updateConditionsBody_onlyNew {now : Time} {new : List NamespaceCondition}
    {t : NamespaceConditionType} {l : List NamespaceCondition} {ch : Bool}
    {k : Nat} {n : NamespaceCondition}
    (hn : getCondition new t = some k) (hnk : new[k]? = some n)
    (ho : getCondition l t = none) :
    updateConditionsBody now new t (l, ch) = some (l ++ [n], true) := by
  simp [updateConditionsBody, hn, ho, load, hnk]

theorem updateConditionsBody_onlyOldFlip {now : Time} {new : List NamespaceCondition}
    {t : NamespaceConditionType} {l : List NamespaceCondition} {ch : Bool}
    {i : Nat} {o : NamespaceCondition}
    (hn : getCondition new t = none) (ho : getCondition l t = some i)
    (hoi : l[i]? = some o) (hs : o.Status ≠ ConditionFalse) :
    updateConditionsBody now new t (l, ch) =
      some (l.set i (clearedCondition now t o), true) := by
  have hlt := getCondition_lt ho
  simp [updateConditionsBody, hn, ho, load, store, hoi, hs, hlt, clearedCondition]

theorem updateConditionsBody_onlyOldKeep {now : Time} {new : List NamespaceCondition}
    {t : NamespaceConditionType} {l : List NamespaceCondition} {ch : Bool}
    {i : Nat} {o : NamespaceCondition}
    (hn : getCondition new t = none) (ho : getCondition l t = some i)
    (hoi : l[i]? = some o) (hs : o.Status = ConditionFalse) :
    updateConditionsBody now new t (l, ch) = some (l, ch) := by
  simp [updateConditionsBody, hn, ho, load, hoi, hs]

theorem updateConditionsBody_bothOverwrite {now : Time} {new : List NamespaceCondition}
    {t : NamespaceConditionType} {l : List NamespaceCondition} {ch : Bool}
    {i : Nat} {o : NamespaceCondition} {k : Nat} {n : NamespaceCondition}
    (hn : getCondition new t = some k) (hnk : new[k]? = some n)
    (ho : getCondition l t = some i) (hoi : l[i]? = some o)
    (hm : o.Message ≠ n.Message) :
    updateConditionsBody now new t (l, ch) =
      some (l.set i (overwrittenCondition now o n), true) := by
  have hlt := getCondition_lt ho
  simp [updateConditionsBody, hn, ho, load, store, hoi, hnk, hm, hlt, overwrittenCondition]

theorem updateConditionsBody_bothKeep {now : Time} {new : List NamespaceCondition}
    {t : NamespaceConditionType} {l : List NamespaceCondition} {ch : Bool}
    {i : Nat} {o : NamespaceCondition} {k : Nat} {n : NamespaceCondition}
    (hn : getCondition new t = some k) (hnk : new[k]? = some n)
    (ho : getCondition l t = some i) (hoi : l[i]? = some o)
    (hm : o.Message = n.Message) :
    updateConditionsBody now new t (l, ch) = some (l, ch) := by
  simp [updateConditionsBody, hn, ho, load, hoi, hnk, hm]

/-- The loop body never dereferences nil, and takes one of its six paths. -/
theorem updateConditionsBody_path (now : Time) (new : List NamespaceCondition)
    (t : NamespaceConditionType) (l : List NamespaceCondition) (ch : Bool) :
    ∃ r, updateConditionsBody now new t (l, ch) = some r ∧ BodyPath now new t l ch r := by
  cases hn : getCondition new t with
  | none =>
    cases ho : getCondition l t with
    | none => exact ⟨_, updateConditionsBody_bothNil hn ho, .bothNil hn ho⟩
    | some i =>
      obtain ⟨o, hoi, -⟩ := getCondition_getElem ho
      by_cases hs : o.Status = ConditionFalse
      · exact ⟨_, updateConditionsBody_onlyOldKeep hn ho hoi hs, .onlyOldKeep i o hn ho hoi hs⟩
      · exact ⟨_, updateConditionsBody_onlyOldFlip hn ho hoi hs, .onlyOldFlip i o hn ho hoi hs⟩
  | some k =>
    obtain ⟨n, hnk, -⟩ := getCondition_getElem hn
    cases ho : getCondition l t with
    | none => exact ⟨_, updateConditionsBody_onlyNew hn hnk ho, .onlyNew k n hn hnk ho⟩
    | some i =>
      obtain ⟨o, hoi, -⟩ := getCondition_getElem ho
      by_cases hm : o.Message = n.Message
      · exact ⟨_, updateConditionsBody_bothKeep hn hnk ho hoi hm,
          .bothKeep i o k n hn hnk ho hoi hm⟩
      · exact ⟨_, updateConditionsBody_bothOverwrite hn hnk ho hoi hm,
          .bothOverwrite i o k n hn hnk ho hoi hm⟩

/-- What one iteration does to the list: nothing, one append, or one write in place. -/
theorem BodyPath.shape {now : Time} {new : List NamespaceCondition}
    {t : NamespaceConditionType} {l : List NamespaceCondition} {ch : Bool}
    {r : List NamespaceCondition × Bool} (h : BodyPath now new t l ch r) :
    (r = (l, ch)) ∨
    (r.2 = true ∧ ∃ n, getCondition l t = none ∧ n ∈ new ∧ n.Type_ = t ∧ r.1 = l ++ [n]) ∨
    (r.2 = true ∧ ∃ i o c, getCondition l t = some i ∧ l[i]? = some o ∧ c.Type_ = t ∧
      c ≠ o ∧ r.1 = l.set i c) := by
  cases h with
  | bothNil hn ho => exact Or.inl rfl
  | onlyNew k n hn hnk ho =>
    exact Or.inr (Or.inl ⟨rfl, n, ho, List.getElem?_mem hnk, getCondition_type hn hnk, rfl⟩)
  | onlyOldFlip i o hn ho hoi hs =>
    refine Or.inr (Or.inr ⟨rfl, i, o, _, ho, hoi, ?_, ?_, rfl⟩)
    · exact (getCondition_type ho hoi : o.Type_ = t)
    · intro he
      apply hs
      rw [← he]
      rfl
  | onlyOldKeep i o hn ho hoi hs => exact Or.inl rfl
  | bothOverwrite i o k n hn hnk ho hoi hm =>
    refine Or.inr (Or.inr ⟨rfl, i, o, _, ho, hoi, ?_, ?_, rfl⟩)
    · exact (getCondition_type hn hnk : n.Type_ = t)
    · intro he
      apply hm
      rw [← he]
      rfl
  | bothKeep i o k n hn hnk ho hoi hm => exact Or.inl rfl

theorem getCondition_set_type {l : List NamespaceCondition} {i : Nat}
    {o c : NamespaceCondition} (hoi : l[i]? = some o) (hc : c.Type_ = o.Type_)
    (t : NamespaceConditionType) : getCondition (l.set i c) t = getCondition l t := by
  apply getCondition_congr
  rw [List.map_set, hc]
  apply List.ext_getElem?
  intro j
  by_cases hj : i = j
  · subst hj
    rw [List.getElem?_set_self', List.getElem?_map, hoi]
    rfl
  · rw [List.getElem?_set_ne hj]

theorem BodyPath.types {now : Time} {new : List NamespaceCondition}
    {t : NamespaceConditionType} {l : List NamespaceCondition} {ch : Bool}
    {r : List NamespaceCondition × Bool} (h : BodyPath now new t l ch r) :
    r.1.map (·.Type_) = l.map (·.Type_) ∨
    (getCondition l t = none ∧ ∃ n, n ∈ new ∧ n.Type_ = t ∧ r.1 = l ++ [n]) := by
  rcases h.shape with h | ⟨-, n, ho, hn, hnt, hr⟩ | ⟨-, i, o, c, ho, hoi, hc, -, hr⟩
  · subst h
    exact Or.inl rfl
  · exact Or.inr ⟨ho, n, hn, hnt, hr⟩
  · left
    rw [hr, List.map_set, hc, ← getCondition_type ho hoi]
    apply List.ext_getElem?
    intro j
    by_cases hj : i = j
    · subst hj
      rw [List.getElem?_set_self', List.getElem?_map, hoi]
      rfl
    · rw [List.getElem?_set_ne hj]

theorem BodyPath.length_le {now : Time} {new : List NamespaceCondition}
    {t : NamespaceConditionType} {l : List NamespaceCondition} {ch : Bool}
    {r : List NamespaceCondition × Bool} (h : BodyPath now new t l ch r) :
    l.length ≤ r.1.length := by
  rcases h.shape with h | ⟨-, n, -, -, -, hr⟩ | ⟨-, i, o, c, -, -, -, -, hr⟩
  · subst h
    exact Nat.le_refl _
  · rw [hr]
    simp
  · rw [hr]
    simp

/-- An iteration leaves every entry of another type as it is. -/
theorem BodyPath.untouched {now : Time} {new : List NamespaceCondition}
    {t : NamespaceConditionType} {l : List NamespaceCondition} {ch : Bool}
    {r : List NamespaceCondition × Bool} (h : BodyPath now new t l ch r)
    {j : Nat} {c : NamespaceCondition} (hj : l[j]? = some c) (hc : c.Type_ ≠ t) :
    r.1[j]? = some c := by
  rcases h.shape with h | ⟨-, n, -, -, -, hr⟩ | ⟨-, i, o, d, ho, hoi, -, -, hr⟩
  · subst h
    exact hj
  · rw [hr, List.getElem?_append_left]
    · exact hj
    · by_contra hlt
      rw [List.getElem?_eq_none (Nat.le_of_not_lt hlt)] at hj
      cases hj
  · rw [hr]
    have hij : i ≠ j := by
      rintro rfl
      rw [hoi] at hj
      cases hj
      exact hc (getCondition_type ho hoi)
    rw [List.getElem?_set_ne hij]
    exact hj

/-- An iteration leaves the lookup of every other type as it is. -/
theorem BodyPath.getCondition_ne {now : Time} {new : List NamespaceCondition}
    {t : NamespaceConditionType} {l : List NamespaceCondition} {ch : Bool}
    {r : List NamespaceCondition × Bool} (h : BodyPath now new t l ch r)
    {t' : NamespaceConditionType} (ht : t' ≠ t) :
    getCondition r.1 t' = getCondition l t' := by
  rcases h.types with h | ⟨-, n, -, hnt, hr⟩
  · exact getCondition_congr h t'
  · rw [hr]
    cases hq : getCondition l t' with
    | some i => exact getCondition_append_of_some hq _
    | none =>
      rw [getCondition_append_of_none hq, getCondition_cons]
      have : ¬ n.Type_ = t' := by
        rw [hnt]
        exact fun e => ht e.symm
      simp [this, getCondition]

theorem BodyPath.flag_mono {now : Time} {new : List NamespaceCondition}
    {t : NamespaceConditionType} {l : List NamespaceCondition} {ch : Bool}
    {r : List NamespaceCondition × Bool} (h : BodyPath now new t l ch r)
    (hch : ch = true) : r.2 = true := by
  rcases h.shape with h | ⟨h, -⟩ | ⟨h, -⟩
  · subst h
    exact hch
  · exact h
  · exact h

/-- An iteration either leaves the state as it is, or raises the flag and leaves a visible
difference at an entry of its own type. -/
theorem BodyPath.exact {now : Time} {new : List NamespaceCondition}
    {t : NamespaceConditionType} {l : List NamespaceCondition} {ch : Bool}
    {r : List NamespaceCondition × Bool} (h : BodyPath now new t l ch r) :
    r = (l, ch) ∨
    (r.2 = true ∧ ∃ (j : Nat) (c : NamespaceCondition),
      r.1[j]? = some c ∧ c.Type_ = t ∧ l[j]? ≠ some c) := by
  rcases h.shape with h | ⟨hf, n, -, -, hnt, hr⟩ | ⟨hf, i, o, d, ho, hoi, hd, hne, hr⟩
  · exact Or.inl h
  · refine Or.inr ⟨hf, l.length, n, ?_, hnt, ?_⟩
    · rw [hr]
      simp
    · simp
  · refine Or.inr ⟨hf, i, d, ?_, hd, ?_⟩
    · rw [hr, List.getElem?_set_self (getCondition_lt ho)]
    · rw [hoi]
      intro he
      cases he
      exact hne rfl

/-! ## The loop -/

theorem updateConditionsLoop_cons {now : NamespaceConditionType → Time}
    {new : List NamespaceCondition} {t : NamespaceConditionType}
    {rest : List NamespaceConditionType} {l : List NamespaceCondition} {ch : Bool}
    {r : List NamespaceCondition × Bool}
    (h : updateConditionsLoop now new (t :: rest) (l, ch) = some r) :
    ∃ s, BodyPath (now t) new t l ch s ∧ updateConditionsLoop now new rest s = some r := by
  obtain ⟨s, hs, hp⟩ := updateConditionsBody_path (now t) new t l ch
  refine ⟨s, hp, ?_⟩
  simpa [updateConditionsLoop, hs] using h

/-- The loop never dereferences nil. -/
theorem updateConditionsLoop_total (now : NamespaceConditionType → Time)
    (new : List NamespaceCondition) (cts : List NamespaceConditionType)
    (st : List NamespaceCondition × Bool) :
    ∃ r, updateConditionsLoop now new cts st = some r := by
  induction cts generalizing st with
  | nil => exact ⟨st, rfl⟩
  | cons t rest ih =>
    obtain ⟨s, hs, -⟩ := updateConditionsBody_path (now t) new t st.1 st.2
    obtain ⟨r, hr⟩ := ih s
    exact ⟨r, by simp [updateConditionsLoop, hs, hr]⟩

theorem updateConditionsLoop_append (now : NamespaceConditionType → Time)
    (new : List NamespaceCondition) (a b : List NamespaceConditionType)
    (st : List NamespaceCondition × Bool) :
    updateConditionsLoop now new (a ++ b) st =
      (updateConditionsLoop now new a st).bind (updateConditionsLoop now new b) := by
  induction a generalizing st with
  | nil => simp [updateConditionsLoop]
  | cons t rest ih =>
    simp only [List.cons_append, updateConditionsLoop]
    cases updateConditionsBody (now t) new t st with
    | none => simp
    | some s => simp [ih]

/-- The loop leaves every entry whose type it does not range over as it is. -/
theorem updateConditionsLoop_untouched {now : NamespaceConditionType → Time}
    {new : List NamespaceCondition} {cts : List NamespaceConditionType}
    {l : List NamespaceCondition} {ch : Bool} {r : List NamespaceCondition × Bool}
    (h : updateConditionsLoop now new cts (l, ch) = some r)
    {j : Nat} {c : NamespaceCondition} (hj : l[j]? = some c) (hc : c.Type_ ∉ cts) :
    r.1[j]? = some c := by
  induction cts generalizing l ch with
  | nil =>
    cases h
    exact hj
  | cons t rest ih =>
    obtain ⟨⟨l1, ch1⟩, hp, hr⟩ := updateConditionsLoop_cons h
    simp only [List.mem_cons, not_or] at hc
    exact ih hr (hp.untouched hj hc.1) hc.2

/-- The loop leaves the lookup of every type it does not range over as it is. -/
theorem updateConditionsLoop_getCondition {now : NamespaceConditionType → Time}
    {new : List NamespaceCondition} {cts : List NamespaceConditionType}
    {l : List NamespaceCondition} {ch : Bool} {r : List NamespaceCondition × Bool}
    (h : updateConditionsLoop now new cts (l, ch) = some r)
    {t : NamespaceConditionType} (ht : t ∉ cts) :
    getCondition r.1 t = getCondition l t := by
  induction cts generalizing l ch with
  | nil =>
    cases h
    rfl
  | cons t' rest ih =>
    obtain ⟨⟨l1, ch1⟩, hp, hr⟩ := updateConditionsLoop_cons h
    simp only [List.mem_cons, not_or] at ht
    rw [ih hr ht.2]
    exact hp.getCondition_ne ht.1

theorem updateConditionsLoop_flag_mono {now : NamespaceConditionType → Time}
    {new : List NamespaceCondition} {cts : List NamespaceConditionType}
    {l : List NamespaceCondition} {ch : Bool} {r : List NamespaceCondition × Bool}
    (h : updateConditionsLoop now new cts (l, ch) = some r) (hch : ch = true) :
    r.2 = true := by
  induction cts generalizing l ch with
  | nil =>
    cases h
    exact hch
  | cons t rest ih =>
    obtain ⟨⟨l1, ch1⟩, hp, hr⟩ := updateConditionsLoop_cons h
    exact ih hr (hp.flag_mono hch)

theorem updateConditionsLoop_length_le {now : NamespaceConditionType → Time}
    {new : List NamespaceCondition} {cts : List NamespaceConditionType}
    {l : List NamespaceCondition} {ch : Bool} {r : List NamespaceCondition × Bool}
    (h : updateConditionsLoop now new cts (l, ch) = some r) :
    l.length ≤ r.1.length := by
  induction cts generalizing l ch with
  | nil =>
    cases h
    exact Nat.le_refl _
  | cons t rest ih =>
    obtain ⟨⟨l1, ch1⟩, hp, hr⟩ := updateConditionsLoop_cons h
    exact Nat.le_trans hp.length_le (ih hr)

/-- Over distinct types the flag is exact: the loop either returns its input state, or
raises the flag and returns another list. -/
theorem updateConditionsLoop_exact {now : NamespaceConditionType → Time}
    {new : List NamespaceCondition} {cts : List NamespaceConditionType}
    (hnd : cts.Nodup)
    {l : List NamespaceCondition} {ch : Bool} {r : List NamespaceCondition × Bool}
    (h : updateConditionsLoop now new cts (l, ch) = some r) :
    r = (l, ch) ∨ (r.2 = true ∧ r.1 ≠ l) := by
  induction cts generalizing l ch with
  | nil =>
    cases h
    exact Or.inl rfl
  | cons t rest ih =>
    obtain ⟨⟨l1, ch1⟩, hp, hr⟩ := updateConditionsLoop_cons h
    rw [List.nodup_cons] at hnd
    rcases hp.exact with he | ⟨hf, j, c, hj, hct, hne⟩
    · cases he
      exact ih hnd.2 hr
    · right
      refine ⟨updateConditionsLoop_flag_mono hr hf, ?_⟩
      intro he
      have := updateConditionsLoop_untouched hr hj (by rw [hct]; exact hnd.1)
      rw [he] at this
      exact hne this

theorem BodyPath.type_at {now : Time} {new : List NamespaceCondition}
    {t : NamespaceConditionType} {l : List NamespaceCondition} {ch : Bool}
    {r : List NamespaceCondition × Bool} (h : BodyPath now new t l ch r)
    {j : Nat} {c : NamespaceCondition} (hj : l[j]? = some c) :
    ∃ c', r.1[j]? = some c' ∧ c'.Type_ = c.Type_ := by
  have hlt : j < l.length := by
    by_contra hlt
    rw [List.getElem?_eq_none (Nat.le_of_not_lt hlt)] at hj
    cases hj
  rcases h.types with h | ⟨-, n, -, -, hr⟩
  · have hm : (r.1.map (·.Type_))[j]? = (l.map (·.Type_))[j]? := by rw [h]
    rw [List.getElem?_map, List.getElem?_map, hj] at hm
    cases hq : r.1[j]? with
    | none => simp [hq] at hm
    | some c' =>
      refine ⟨c', rfl, ?_⟩
      simpa [hq] using hm
  · exact ⟨c, by rw [hr, List.getElem?_append_left hlt]; exact hj, rfl⟩

/-- The loop keeps the type of every entry of its input list, position by position. -/
theorem updateConditionsLoop_type_at {now : NamespaceConditionType → Time}
    {new : List NamespaceCondition} {cts : List NamespaceConditionType}
    {l : List NamespaceCondition} {ch : Bool} {r : List NamespaceCondition × Bool}
    (h : updateConditionsLoop now new cts (l, ch) = some r)
    {j : Nat} {c : NamespaceCondition} (hj : l[j]? = some c) :
    ∃ c', r.1[j]? = some c' ∧ c'.Type_ = c.Type_ := by
  induction cts generalizing l ch c with
  | nil =>
    cases h
    exact ⟨c, hj, rfl⟩
  | cons t rest ih =>
    obtain ⟨⟨l1, ch1⟩, hp, hr⟩ := updateConditionsLoop_cons h
    obtain ⟨c1, hc1, ht1⟩ := hp.type_at hj
    obtain ⟨c2, hc2, ht2⟩ := ih hr hc1
    exact ⟨c2, hc2, ht2.trans ht1⟩

/-- Over distinct types, every entry beyond the input list is a copy of an entry of the new
list, of a type the loop ranges over and the input list did not hold. -/
theorem updateConditionsLoop_appended {now : NamespaceConditionType → Time}
    {new : List NamespaceCondition} {cts : List NamespaceConditionType}
    (hnd : cts.Nodup)
    {l : List NamespaceCondition} {ch : Bool} {r : List NamespaceCondition × Bool}
    (h : updateConditionsLoop now new cts (l, ch) = some r)
    {j : Nat} {c : NamespaceCondition} (hlj : l.length ≤ j) (hj : r.1[j]? = some c) :
    c ∈ new ∧ c.Type_ ∈ cts ∧ getCondition l c.Type_ = none := by
  induction cts generalizing l ch with
  | nil =>
    cases h
    rw [List.getElem?_eq_none hlj] at hj
    cases hj
  | cons t rest ih =>
    obtain ⟨⟨l1, ch1⟩, hp, hr⟩ := updateConditionsLoop_cons h
    rw [List.nodup_cons] at hnd
    by_cases hl1 : l1.length ≤ j
    · obtain ⟨hcn, hct, hg⟩ := ih hnd.2 hr hl1
      refine ⟨hcn, List.mem_cons_of_mem _ hct, ?_⟩
      have hne : c.Type_ ≠ t := fun e => hnd.1 (e ▸ hct)
      rw [← hp.getCondition_ne hne]
      exact hg
    · rcases hp.shape with he | ⟨-, n, ho, hn, hnt, hl⟩ | ⟨-, i, o, d, -, -, -, -, hl⟩
      · cases he
        exact absurd hlj hl1
      · simp only at hl
        subst hl
        have hjl : j = l.length := by
          simp only [List.length_append, List.length_singleton] at hl1
          omega
        subst hjl
        have h1 : (l ++ [n])[l.length]? = some n := by simp
        have h2 := updateConditionsLoop_untouched hr h1 (by rw [hnt]; exact hnd.1)
        rw [hj] at h2
        cases h2
        exact ⟨hn, by rw [hnt]; exact List.mem_cons_self _ _, by rw [hnt]; exact ho⟩
      · simp only at hl
        subst hl
        simp only [List.length_set] at hl1
        exact absurd hlj hl1

/-- The loop keeps the types of a list pairwise distinct. -/
theorem updateConditionsLoop_nodup {now : NamespaceConditionType → Time}
    {new : List NamespaceCondition} {cts : List NamespaceConditionType}
    {l : List NamespaceCondition} {ch : Bool} {r : List NamespaceCondition × Bool}
    (h : updateConditionsLoop now new cts (l, ch) = some r)
    (hl : (l.map (·.Type_)).Nodup) : (r.1.map (·.Type_)).Nodup := by
  induction cts generalizing l ch with
  | nil =>
    cases h
    exact hl
  | cons t rest ih =>
    obtain ⟨⟨l1, ch1⟩, hp, hr⟩ := updateConditionsLoop_cons h
    apply ih hr
    rcases hp.types with he | ⟨ho, n, -, hnt, he⟩
    · rw [he]
      exact hl
    · simp only at he
      rw [he, List.map_append, List.map_singleton, List.nodup_append]
      refine ⟨hl, List.nodup_singleton _, ?_⟩
      rw [List.disjoint_singleton, hnt]
      intro hmem
      obtain ⟨c, hc, hct⟩ := List.mem_map.1 hmem
      exact getCondition_eq_none.1 ho c hc hct

/-! ## The three managed condition types -/

theorem conditionTypes_nodup : conditionTypes.Nodup := by decide

theorem conditionTypes_split {ct : NamespaceConditionType} (hct : ct ∈ conditionTypes) :
    ∃ pre post, conditionTypes = pre ++ ct :: post ∧ ct ∉ pre ∧ ct ∉ post ∧
      conditionTypes.erase ct = pre ++ post := by
  simp only [conditionTypes, List.mem_cons, List.mem_singleton, List.not_mem_nil,
    or_false] at hct
  rcases hct with rfl | rfl | rfl
  · exact ⟨[], [NamespaceDeletionGVParsingFailure, NamespaceDeletionContentFailure],
      rfl, by decide, by decide, by decide⟩
  · exact ⟨[NamespaceDeletionDiscoveryFailure], [NamespaceDeletionContentFailure],
      rfl, by decide, by decide, by decide⟩
  · exact ⟨[NamespaceDeletionDiscoveryFailure, NamespaceDeletionGVParsingFailure], [],
      rfl, by decide, by decide, by decide⟩

/-- The run of `updateConditions`, seen from one managed type `ct`: the iterations before
the one for `ct` leave the lookup of `ct` and the entries of type `ct` alone, and so do the
iterations after it. -/
theorem updateConditions_focus (now : NamespaceConditionType → Time)
    (old new : List NamespaceCondition) {ct : NamespaceConditionType}
    (hct : ct ∈ conditionTypes) :
    ∃ l1 ch1 s r,
      updateConditionsBody (now ct) new ct (l1, ch1) = some s ∧
      updateConditions now old new = some r ∧
      getCondition l1 ct = getCondition old ct ∧
      (∀ (j : Nat) (c : NamespaceCondition),
        old[j]? = some c → c.Type_ = ct → l1[j]? = some c) ∧
      old.length ≤ l1.length ∧
      (∀ (j : Nat) (c : NamespaceCondition),
        s.1[j]? = some c → c.Type_ = ct → r.1[j]? = some c) ∧
      getCondition r.1 ct = getCondition s.1 ct ∧
      (s.2 = true → r.2 = true) := by
  obtain ⟨pre, post, hsplit, hpre, hpost, -⟩ := conditionTypes_split hct
  obtain ⟨⟨l1, ch1⟩, h1⟩ := updateConditionsLoop_total now new pre (old, false)
  obtain ⟨s, hs, -⟩ := updateConditionsBody_path (now ct) new ct l1 ch1
  obtain ⟨r, hr⟩ := updateConditionsLoop_total now new post s
  refine ⟨l1, ch1, s, r, hs, ?_, ?_, ?_, ?_, ?_, ?_, ?_⟩
  · unfold updateConditions
    rw [hsplit, updateConditionsLoop_append, h1]
    simp [updateConditionsLoop, hs, hr]
  · exact updateConditionsLoop_getCondition h1 hpre
  · intro j c hj hc
    exact updateConditionsLoop_untouched h1 hj (by rw [hc]; exact hpre)
  · exact updateConditionsLoop_length_le h1
  · intro j c hj hc
    exact updateConditionsLoop_untouched hr hj (by rw [hc]; exact hpost)
  · exact updateConditionsLoop_getCondition hr hpost
  · exact updateConditionsLoop_flag_mono hr

theorem okPair_table {ct : NamespaceConditionType} (hct : ct ∈ conditionTypes) :
    (ct, mapIndex okMessages ct, mapIndex okReasons ct) ∈
      [(NamespaceDeletionDiscoveryFailure,
          "All resources successfully discovered", "ResourcesDiscovered"),
       (NamespaceDeletionGVParsingFailure,
          "All legacy kube types successfully parsed", "ParsedGroupVersions"),
       (NamespaceDeletionContentFailure,
          "All content successfully deleted", "ContentDeleted")] := by
  simp only [conditionTypes, List.mem_cons, List.mem_singleton, List.not_mem_nil,
    or_false] at hct
  rcases hct with rfl | rfl | rfl <;> decide

/-- The run of `updateConditions` when both lists hold an entry of the managed type `ct`
and the messages differ: the stored entry is overwritten where it stands. -/
theorem updateConditions_overwrite (now : NamespaceConditionType → Time)
    {old new : List NamespaceCondition} {ct : NamespaceConditionType}
    {i k : Nat} {o n : NamespaceCondition}
    (hct : ct ∈ conditionTypes)
    (hold : getCondition old ct = some i) (hoi : old[i]? = some o)
    (hnew : getCondition new ct = some k) (hnk : new[k]? = some n)
    (hm : o.Message ≠ n.Message) :
    ∃ res, updateConditions now old new = some (res, true) ∧
      getCondition res ct = some i ∧
      res[i]? = some (overwrittenCondition (now ct) o n) := by
  obtain ⟨l1, ch1, s, ⟨res, ch⟩, hs1, hr, hg1, hk1, -, hk2, hg2, hf⟩ :=
    updateConditions_focus now old new hct
  have ho1 : getCondition l1 ct = some i := hg1.trans hold
  have hoi1 : l1[i]? = some o := hk1 i o hoi (getCondition_type hold hoi)
  rw [updateConditionsBody_bothOverwrite hnew hnk ho1 hoi1 hm] at hs1
  cases hs1
  have hset : (l1.set i (overwrittenCondition (now ct) o n))[i]? =
      some (overwrittenCondition (now ct) o n) :=
    List.getElem?_set_self (getCondition_lt ho1)
  have hty : (overwrittenCondition (now ct) o n).Type_ = ct :=
    (getCondition_type hnew hnk : n.Type_ = ct)
  have hch : ch = true := hf rfl
  subst hch
  refine ⟨res, hr, ?_, hk2 i _ hset hty⟩
  rw [hg2]
  refine (getCondition_set_type hoi1 ?_ ct).trans ho1
  exact hty.trans (getCondition_type hold hoi).symm

/-! ## Settled lists -/

theorem Settled.body {new l : List NamespaceCondition} {t : NamespaceConditionType}
    (h : Settled new l t) (now : Time) (ch : Bool) :
    updateConditionsBody now new t (l, ch) = some (l, ch) := by
  cases hn : getCondition new t with
  | none =>
    cases ho : getCondition l t with
    | none => exact updateConditionsBody_bothNil hn ho
    | some i =>
      obtain ⟨o, hoi, -⟩ := getCondition_getElem ho
      exact updateConditionsBody_onlyOldKeep hn ho hoi (h.2 hn i o ho hoi)
  | some k =>
    obtain ⟨n, hnk, -⟩ := getCondition_getElem hn
    obtain ⟨i, o, ho, hoi, hm⟩ := h.1 k n hn hnk
    exact updateConditionsBody_bothKeep hn hnk ho hoi hm

/-- One iteration settles the list for its own type. -/
theorem BodyPath.settles {now : Time} {new : List NamespaceCondition}
    {t : NamespaceConditionType} {l : List NamespaceCondition} {ch : Bool}
    {r : List NamespaceCondition × Bool} (h : BodyPath now new t l ch r) :
    Settled new r.1 t := by
  cases h with
  | bothNil hn ho =>
    refine ⟨fun k n hk => ?_, fun _ i o hi => ?_⟩
    · rw [hn] at hk
      cases hk
    · simp only at hi
      rw [ho] at hi
      cases hi
  | onlyNew k n hn hnk ho =>
    refine ⟨fun k' n' hk' hnk' => ?_, fun hnone => ?_⟩
    · rw [hn] at hk'
      cases hk'
      rw [hnk] at hnk'
      cases hnk'
      refine ⟨l.length, n, ?_, by simp, rfl⟩
      simp only
      rw [getCondition_append_of_none ho, getCondition_cons]
      simp [getCondition_type hn hnk]
    · rw [hn] at hnone
      cases hnone
  | onlyOldFlip i o hn ho hoi hs =>
    have hg : getCondition (l.set i (clearedCondition now t o)) t = some i :=
      (getCondition_set_type hoi
        (rfl : (clearedCondition now t o).Type_ = o.Type_) t).trans ho
    refine ⟨fun k n hk => ?_, fun _ i' o' hi' hoi' => ?_⟩
    · rw [hn] at hk
      cases hk
    · simp only at hi' hoi'
      rw [hg] at hi'
      cases hi'
      rw [List.getElem?_set_self (getCondition_lt ho)] at hoi'
      cases hoi'
      rfl
  | onlyOldKeep i o hn ho hoi hs =>
    refine ⟨fun k n hk => ?_, fun _ i' o' hi' hoi' => ?_⟩
    · rw [hn] at hk
      cases hk
    · simp only at hi' hoi'
      rw [ho] at hi'
      cases hi'
      rw [hoi] at hoi'
      cases hoi'
      exact hs
  | bothOverwrite i o k n hn hnk ho hoi hm =>
    have hty : (overwrittenCondition now o n).Type_ = o.Type_ :=
      (getCondition_type hn hnk : n.Type_ = t).trans (getCondition_type ho hoi).symm
    have hg : getCondition (l.set i (overwrittenCondition now o n)) t = some i :=
      (getCondition_set_type hoi hty t).trans ho
    refine ⟨fun k' n' hk' hnk' => ?_, fun hnone => ?_⟩
    · rw [hn] at hk'
      cases hk'
      rw [hnk] at hnk'
      cases hnk'
      exact ⟨i, _, hg, List.getElem?_set_self (getCondition_lt ho), rfl⟩
    · rw [hn] at hnone
      cases hnone
  | bothKeep i o k n hn hnk ho hoi hm =>
    refine ⟨fun k' n' hk' hnk' => ?_, fun hnone => ?_⟩
    · rw [hn] at hk'
      cases hk'
      rw [hnk] at hnk'
      cases hnk'
      exact ⟨i, o, ho, hoi, hm⟩
    · rw [hn] at hnone
      cases hnone

/-- An iteration for another type keeps the list settled. -/
theorem BodyPath.settled_ne {now : Time} {new : List NamespaceCondition}
    {t : NamespaceConditionType} {l : List NamespaceCondition} {ch : Bool}
    {r : List NamespaceCondition × Bool} (h : BodyPath now new t l ch r)
    {t' : NamespaceConditionType} (ht : t' ≠ t) (hs : Settled new l t') :
    Settled new r.1 t' := by
  have hg := h.getCondition_ne ht
  refine ⟨fun k n hk hnk => ?_, fun hnone i o hi hoi => ?_⟩
  · obtain ⟨i, o, hi, hoi, hm⟩ := hs.1 k n hk hnk
    refine ⟨i, o, hg.trans hi, h.untouched hoi ?_, hm⟩
    rw [getCondition_type hi hoi]
    exact ht
  · rw [hg] at hi
    obtain ⟨o', hoi', hty⟩ := getCondition_getElem hi
    have := h.untouched hoi' (by rw [hty]; exact ht)
    rw [hoi] at this
    cases this
    exact hs.2 hnone i o hi hoi'

/-- The loop settles the list for every type it ranges over. -/
theorem updateConditionsLoop_settles {now : NamespaceConditionType → Time}
    {new : List NamespaceCondition} {cts : List NamespaceConditionType}
    {l : List NamespaceCondition} {ch : Bool} {r : List NamespaceCondition × Bool}
    (h : updateConditionsLoop now new cts (l, ch) = some r)
    {t : NamespaceConditionType} (ht : t ∈ cts ∨ Settled new l t) :
    Settled new r.1 t := by
  induction cts generalizing l ch with
  | nil =>
    cases h
    rcases ht with ht | ht
    · cases ht
    · exact ht
  | cons t' rest ih =>
    obtain ⟨⟨l1, ch1⟩, hp, hr⟩ := updateConditionsLoop_cons h
    apply ih hr
    by_cases he : t = t'
    · subst he
      exact Or.inr hp.settles
    · rcases ht with ht | ht
      · rcases List.mem_cons.1 ht with ht | ht
        · exact absurd ht he
        · exact Or.inl ht
      · exact Or.inr (hp.settled_ne he ht)

/-- On a list that is settled for every type it ranges over, the loop does nothing. -/
theorem updateConditionsLoop_of_settled (now : NamespaceConditionType → Time)
    {new : List NamespaceCondition} {cts : List NamespaceConditionType}
    {l : List NamespaceCondition} (ch : Bool)
    (h : ∀ t ∈ cts, Settled new l t) :
    updateConditionsLoop now new cts (l, ch) = some (l, ch) := by
  induction cts with
  | nil => rfl
  | cons t rest ih =>
    simp only [updateConditionsLoop, (h t (List.mem_cons_self _ _)).body, Option.some_bind]
    exact ih fun t' ht' => h t' (List.mem_cons_of_mem _ ht')

/-! ## Sequences of merges, and lengths -/

theorem updateConditionsSeq_single
    (merges : List ((NamespaceConditionType → Time) × List NamespaceCondition))
    (old : List NamespaceCondition) (h : singleEntryPerType old) :
    ∃ res, updateConditionsSeq merges old = some res ∧ singleEntryPerType res := by
  induction merges generalizing old with
  | nil => exact ⟨old, rfl, h⟩
  | cons m rest ih =>
    obtain ⟨now, new⟩ := m
    obtain ⟨⟨l1, c1⟩, hr⟩ := updateConditionsLoop_total now new conditionTypes (old, false)
    obtain ⟨res, hres, hs⟩ := ih l1 (updateConditionsLoop_nodup hr h)
    refine ⟨res, ?_, hs⟩
    have hr' : updateConditions now old new = some (l1, c1) := hr
    simp [updateConditionsSeq, hr', hres]

theorem getCondition_isSome (l : List NamespaceCondition) (t : NamespaceConditionType) :
    (getCondition l t).isSome = l.any fun c => decide (c.Type_ = t) := by
  induction l with
  | nil => rfl
  | cons d ds ih =>
    rw [getCondition_cons, List.any_cons, ← ih]
    by_cases hd : d.Type_ = t
    · simp [hd]
    · cases getCondition ds t <;> simp [hd]

theorem BodyPath.length_eq {now : Time} {new : List NamespaceCondition}
    {t : NamespaceConditionType} {l : List NamespaceCondition} {ch : Bool}
    {r : List NamespaceCondition × Bool} (h : BodyPath now new t l ch r) :
    r.1.length = l.length +
      if ((getCondition new t).isSome && (getCondition l t).isNone) = true then 1 else 0 := by
  cases h with
  | bothNil hn ho => simp [hn, ho]
  | onlyNew k n hn hnk ho => simp [hn, ho]
  | onlyOldFlip i o hn ho hoi hs => simp [hn, ho]
  | onlyOldKeep i o hn ho hoi hs => simp [hn, ho]
  | bothOverwrite i o k n hn hnk ho hoi hm => simp [hn, ho]
  | bothKeep i o k n hn hnk ho hoi hm => simp [hn, ho]

/-- Over distinct types, the loop grows the list by one entry for each type that the new
list holds and the input list does not. -/
theorem updateConditionsLoop_length {now : NamespaceConditionType → Time}
    {new : List NamespaceCondition} {cts : List NamespaceConditionType}
    (hnd : cts.Nodup)
    {l : List NamespaceCondition} {ch : Bool} {r : List NamespaceCondition × Bool}
    (h : updateConditionsLoop now new cts (l, ch) = some r) :
    r.1.length = l.length +
      (cts.filter fun t => (getCondition new t).isSome && (getCondition l t).isNone).length := by
  induction cts generalizing l ch with
  | nil =>
    cases h
    rfl
  | cons t rest ih =>
    obtain ⟨⟨l1, ch1⟩, hp, hr⟩ := updateConditionsLoop_cons h
    rw [List.nodup_cons] at hnd
    have hcongr : (rest.filter fun t' =>
          (getCondition new t').isSome && (getCondition l1 t').isNone) =
        rest.filter fun t' => (getCondition new t').isSome && (getCondition l t').isNone := by
      apply List.filter_congr
      intro t' ht'
      have hne : t' ≠ t := fun e => hnd.1 (e ▸ ht')
      rw [hp.getCondition_ne hne]
    rw [ih hnd.2 hr, hcongr, hp.length_eq, List.filter_cons]
    split
    · simp only [List.length_cons]
      omega
    · omega

theorem getCondition_isSome_iff (l : List NamespaceCondition) (t : NamespaceConditionType) :
    (getCondition l t).isSome = true ↔ ∃ c ∈ l, c.Type_ = t := by
  rw [getCondition_isSome, List.any_eq_true]
  simp

/-! ## The order of `sort.Strings` -/

theorem lexLe_total (a b : List Nat) : lexLe a b = true ∨ lexLe b a = true := by
  induction a generalizing b with
  | nil => exact Or.inl rfl
  | cons x xs ih =>
    cases b with
    | nil => exact Or.inr rfl
    | cons y ys =>
      simp only [lexLe, Bool.or_eq_true, Bool.and_eq_true, decide_eq_true_eq]
      rcases Nat.lt_trichotomy x y with h | h | h
      · exact Or.inl (Or.inl h)
      · rcases ih ys with h' | h'
        · exact Or.inl (Or.inr ⟨h, h'⟩)
        · exact Or.inr (Or.inr ⟨h.symm, h'⟩)
      · exact Or.inr (Or.inl h)

theorem lexLe_trans {a b c : List Nat} (hab : lexLe a b = true) (hbc : lexLe b c = true) :
    lexLe a c = true := by
  induction a generalizing b c with
  | nil => rfl
  | cons x xs ih =>
    cases b with
    | nil => simp [lexLe] at hab
    | cons y ys =>
      cases c with
      | nil => simp [lexLe] at hbc
      | cons z zs =>
        simp only [lexLe, Bool.or_eq_true, Bool.and_eq_true, decide_eq_true_eq] at hab hbc ⊢
        rcases hab with h1 | ⟨h1, h1'⟩ <;> rcases hbc with h2 | ⟨h2, h2'⟩
        · exact Or.inl (Nat.lt_trans h1 h2)
        · exact Or.inl (h2 ▸ h1)
        · exact Or.inl (h1 ▸ h2)
        · exact Or.inr ⟨h1.trans h2, ih h1' h2'⟩

theorem lexLe_antisymm {a b : List Nat} (hab : lexLe a b = true) (hba : lexLe b a = true) :
    a = b := by
  induction a generalizing b with
  | nil =>
    cases b with
    | nil => rfl
    | cons y ys => simp [lexLe] at hba
  | cons x xs ih =>
    cases b with
    | nil => simp [lexLe] at hab
    | cons y ys =>
      simp only [lexLe, Bool.or_eq_true, Bool.and_eq_true, decide_eq_true_eq] at hab hba
      rcases hab with h1 | ⟨h1, h1'⟩ <;> rcases hba with h2 | ⟨h2, h2'⟩
      · omega
      · omega
      · omega
      · rw [h1, ih h1' h2']

theorem codePoints_injective {a b : String}
    (h : a.data.map Char.toNat = b.data.map Char.toNat) : a = b := by
  have hinj : Function.Injective Char.toNat := by
    intro c d hcd
    apply Char.ext
    apply UInt32.ext
    exact hcd
  exact String.ext (List.map_injective_iff.2 hinj h)

theorem sortStrings_perm (msgs : List String) : (sortStrings msgs).Perm msgs :=
  List.perm_insertionSort _ msgs

theorem sortStrings_sorted (msgs : List String) :
    (sortStrings msgs).Sorted fun a b => stringLe a b = true :=
  @List.sorted_insertionSort String (fun a b => stringLe a b = true) _
    ⟨fun _ _ => lexLe_total _ _⟩ ⟨fun _ _ _ hab hbc => lexLe_trans hab hbc⟩ msgs

/-- The result of `sort.Strings` does not depend on the order of its input. -/
theorem sortStrings_eq_of_perm {l l' : List String} (h : l.Perm l') :
    sortStrings l = sortStrings l' :=
  @List.eq_of_perm_of_sorted String (fun a b => stringLe a b = true)
    ⟨fun _ _ hab hba => codePoints_injective (lexLe_antisymm hab hba)⟩ _ _
    (((sortStrings_perm l).trans h).trans (sortStrings_perm l').symm)
    (sortStrings_sorted l) (sortStrings_sorted l')

/-! ## The builder -/

theorem Report.run_newConditions (call : Report) (u : namespaceConditionUpdater) :
    (call.run u).newConditions = u.newConditions ++ call.derived.toList := by
  cases call <;> simp [Report.run, Report.derived, ProcessDiscoverResourcesErr,
    ProcessGroupVersionErr, ProcessDeleteContentErr, freshUpdater]

theorem Report.run_deleteContentErrors (call : Report) (u : namespaceConditionUpdater) :
    (call.run u).deleteContentErrors = u.deleteContentErrors ++ call.collected.toList := by
  cases call <;> simp [Report.run, Report.collected, ProcessDiscoverResourcesErr,
    ProcessGroupVersionErr, ProcessDeleteContentErr, freshUpdater]

theorem runReports_append (a b : List Report) (u : namespaceConditionUpdater) :
    runReports (a ++ b) u = runReports b (runReports a u) := by
  simp [runReports, List.foldl_append]

theorem runReports_newConditions (calls : List Report) (u : namespaceConditionUpdater) :
    (runReports calls u).newConditions =
      u.newConditions ++ calls.filterMap Report.derived := by
  induction calls generalizing u with
  | nil => simp [runReports]
  | cons call rest ih =>
    have hstep : runReports (call :: rest) u = runReports rest (call.run u) := rfl
    rw [hstep, ih, Report.run_newConditions, List.filterMap_cons]
    cases call.derived <;> simp

theorem runReports_deleteContentErrors (calls : List Report)
    (u : namespaceConditionUpdater) :
    (runReports calls u).deleteContentErrors =
      u.deleteContentErrors ++ calls.filterMap Report.collected := by
  induction calls generalizing u with
  | nil => simp [runReports]
  | cons call rest ih =>
    have hstep : runReports (call :: rest) u = runReports rest (call.run u) := rfl
    rw [hstep, ih, Report.run_deleteContentErrors, List.filterMap_cons]
    cases call.collected <;> simp

/-- A report call derives a failing condition of the discovery or of the parsing type,
or none. -/
theorem Report.derived_spec {call : Report} {d : NamespaceCondition}
    (h : call.derived = some d) :
    d.Status = ConditionTrue ∧
    ((d.Type_ = NamespaceDeletionDiscoveryFailure ∧ call.isDiscoverResourcesErr = true) ∨
      (d.Type_ = NamespaceDeletionGVParsingFailure ∧ call.isGroupVersionErr = true)) := by
  cases call with
  | discoverResourcesErr now1 now2 err =>
    simp [Report.derived, Report.run, ProcessDiscoverResourcesErr, freshUpdater] at h
    subst h
    exact ⟨rfl, Or.inl ⟨rfl, rfl⟩⟩
  | groupVersionErr now1 now2 err =>
    simp [Report.derived, Report.run, ProcessGroupVersionErr, freshUpdater] at h
    subst h
    exact ⟨rfl, Or.inr ⟨rfl, rfl⟩⟩
  | deleteContentErr err =>
    simp [Report.derived, Report.run, ProcessDeleteContentErr, freshUpdater] at h

theorem makeDeleteContentCondition_eq_none (now1 now2 : Time) (errs : List GoError) :
    makeDeleteContentCondition now1 now2 errs = none ↔ errs = [] := by
  cases errs <;> simp [makeDeleteContentCondition]

theorem makeDeleteContentCondition_cons (now1 now2 : Time) (e : GoError)
    (es : List GoError) :
    makeDeleteContentCondition now1 now2 (e :: es) =
      some
        { Type_ := NamespaceDeletionContentFailure
          Status := ConditionTrue
          LastProbeTime := now1
          LastTransitionTime := now2
          Reason := "ContentDeletionFailed"
          Message := "Failed to delete all resource types, " ++ toString (es.length + 1) ++
            " remaining: " ++ ", ".intercalate (sortStrings ((e :: es).map GoError.Error)) } := by
  simp [makeDeleteContentCondition]

theorem makeDeleteContentCondition_spec {now1 now2 : Time} {errs : List GoError}
    {c : NamespaceCondition} (h : makeDeleteContentCondition now1 now2 errs = some c) :
    c.Type_ = NamespaceDeletionContentFailure ∧ c.Status = ConditionTrue := by
  cases errs with
  | nil => simp [makeDeleteContentCondition] at h
  | cons e es =>
    rw [makeDeleteContentCondition_cons] at h
    cases h
    exact ⟨rfl, rfl⟩

theorem Update_eq (now1 now2 : Time) (now : NamespaceConditionType → Time)
    (u : namespaceConditionUpdater) (conditions : List NamespaceCondition) :
    Update now1 now2 now u conditions =
      (updateConditions now conditions (withContentCondition now1 now2 u).newConditions).bind
        fun r => some (withContentCondition now1 now2 u, r.1, r.2) := rfl

/-- The run of `updateConditions` when the iteration for the managed type `ct` has
nothing to do on the entry it finds: the result is what the loop returns when it skips
`ct`, and the entry is returned as it was. -/
theorem updateConditions_skip (now : NamespaceConditionType → Time)
    {old new : List NamespaceCondition} {ct : NamespaceConditionType}
    {i : Nat} {o : NamespaceCondition}
    (hct : ct ∈ conditionTypes)
    (hold : getCondition old ct = some i) (hoi : old[i]? = some o)
    (hbody : ∀ (l : List NamespaceCondition) (ch : Bool),
      getCondition l ct = some i → l[i]? = some o →
        updateConditionsBody (now ct) new ct (l, ch) = some (l, ch)) :
    ∃ res changed, updateConditions now old new = some (res, changed) ∧
      res[i]? = some o ∧
      updateConditionsLoop now new (conditionTypes.erase ct) (old, false) =
        some (res, changed) := by
  obtain ⟨pre, post, hsplit, hpre, hpost, herase⟩ := conditionTypes_split hct
  obtain ⟨⟨l1, ch1⟩, h1⟩ := updateConditionsLoop_total now new pre (old, false)
  obtain ⟨⟨res, ch⟩, hr⟩ := updateConditionsLoop_total now new post (l1, ch1)
  have ho1 : getCondition l1 ct = some i :=
    (updateConditionsLoop_getCondition h1 hpre).trans hold
  have hoi1 : l1[i]? = some o :=
    updateConditionsLoop_untouched h1 hoi (by rw [getCondition_type hold hoi]; exact hpre)
  have hskip : updateConditionsLoop now new (conditionTypes.erase ct) (old, false) =
      some (res, ch) := by
    rw [herase, updateConditionsLoop_append, h1]
    exact hr
  refine ⟨res, ch, ?_, ?_, hskip⟩
  · unfold updateConditions
    rw [hsplit, updateConditionsLoop_append, h1]
    simp [updateConditionsLoop, hbody l1 ch1 ho1 hoi1, hr]
  · refine updateConditionsLoop_untouched hskip hoi ?_
    rw [getCondition_type hold hoi, herase]
    simp [hpre, hpost]

theorem getCondition_append_cons {a b : List NamespaceCondition} {d : NamespaceCondition}
    {t : NamespaceConditionType} (ha : ∀ c ∈ a, c.Type_ ≠ t) (hd : d.Type_ = t) :
    getCondition (a ++ d :: b) t = some a.length := by
  rw [getCondition_append_of_none (getCondition_eq_none.2 ha), getCondition_cons]
  simp [hd]

/-- The derived list of a fresh builder after a sequence of report calls holds failing
conditions of the discovery and of the parsing type only. -/
theorem runReports_fresh_mem {calls : List Report} {c : NamespaceCondition}
    (h : c ∈ (runReports calls freshUpdater).newConditions) :
    c.Status = ConditionTrue ∧
    (c.Type_ = NamespaceDeletionDiscoveryFailure ∨
      c.Type_ = NamespaceDeletionGVParsingFailure) := by
  rw [runReports_newConditions] at h
  simp only [freshUpdater, List.nil_append, List.mem_filterMap] at h
  obtain ⟨call, -, hcall⟩ := h
  obtain ⟨hs, ht | ht⟩ := Report.derived_spec hcall
  · exact ⟨hs, Or.inl ht.1⟩
  · exact ⟨hs, Or.inr ht.1⟩

theorem runReports_fresh_content (calls : List Report) :
    getCondition (runReports calls freshUpdater).newConditions
      NamespaceDeletionContentFailure = none := by
  rw [getCondition_eq_none]
  intro c hc he
  rcases (runReports_fresh_mem hc).2 with h | h
  · rw [h] at he
    exact absurd he (by decide)
  · rw [h] at he
    exact absurd he (by decide)

/-- The first statement of `Update` on a fresh builder after a sequence of report calls
appends the content condition, if there is one, to the derived list. -/
theorem withContentCondition_fresh (now1 now2 : Time) (calls : List Report) :
    (withContentCondition now1 now2 (runReports calls freshUpdater)).newConditions =
      (runReports calls freshUpdater).newConditions ++
        (makeDeleteContentCondition now1 now2
          (runReports calls freshUpdater).deleteContentErrors).toList ∧
    (withContentCondition now1 now2 (runReports calls freshUpdater)).deleteContentErrors =
      (runReports calls freshUpdater).deleteContentErrors := by
  unfold withContentCondition
  rw [if_pos (runReports_fresh_content calls)]
  cases makeDeleteContentCondition now1 now2
    (runReports calls freshUpdater).deleteContentErrors <;> simp

/-- Every condition that a fresh builder hands to the merger is a failing one. -/
theorem withContentCondition_fresh_status {now1 now2 : Time} {calls : List Report}
    {c : NamespaceCondition}
    (h : c ∈ (withContentCondition now1 now2 (runReports calls freshUpdater)).newConditions) :
    c.Status = ConditionTrue := by
  rw [(withContentCondition_fresh now1 now2 calls).1, List.mem_append] at h
  rcases h with h | h
  · exact (runReports_fresh_mem h).1
  · rw [Option.mem_toList] at h
    exact (makeDeleteContentCondition_spec h).2

/-- The first statement of `Update` does nothing on a builder that went through it. -/
theorem withContentCondition_idem (now1 now2 later1 later2 : Time) (calls : List Report) :
    withContentCondition later1 later2
        (withContentCondition now1 now2 (runReports calls freshUpdater)) =
      withContentCondition now1 now2 (runReports calls freshUpdater) := by
  obtain ⟨hnc, herr⟩ := withContentCondition_fresh now1 now2 calls
  generalize withContentCondition now1 now2 (runReports calls freshUpdater) = u1 at hnc herr
  unfold withContentCondition
  cases hm : makeDeleteContentCondition now1 now2
      (runReports calls freshUpdater).deleteContentErrors with
  | none =>
    have hnil := (makeDeleteContentCondition_eq_none _ _ _).1 hm
    rw [herr, hnil]
    simp [makeDeleteContentCondition]
  | some c =>
    rw [hm] at hnc
    have hg : getCondition u1.newConditions NamespaceDeletionContentFailure =
        some (runReports calls freshUpdater).newConditions.length := by
      rw [hnc]
      exact getCondition_append_cons
        (getCondition_eq_none.1 (runReports_fresh_content calls))
        (makeDeleteContentCondition_spec hm).1
    simp [hg]

theorem BodyPath.entry {now : Time} {new : List NamespaceCondition}
    {t : NamespaceConditionType} {l : List NamespaceCondition} {ch : Bool}
    {r : List NamespaceCondition × Bool} (h : BodyPath now new t l ch r)
    {j : Nat} {o : NamespaceCondition} (hj : l[j]? = some o) :
    r.1[j]? = some o ∨
    (o.Type_ = t ∧ getCondition new t = none ∧ o.Status ≠ ConditionFalse ∧
      r.1[j]? = some (clearedCondition now t o)) ∨
    (o.Type_ = t ∧ ∃ k n, getCondition new t = some k ∧ new[k]? = some n ∧
      r.1[j]? = some (overwrittenCondition now o n)) := by
  have hlt : j < l.length := by
    by_contra hlt
    rw [List.getElem?_eq_none (Nat.le_of_not_lt hlt)] at hj
    cases hj
  cases h with
  | bothNil hn ho => exact Or.inl hj
  | onlyNew k n hn hnk ho =>
    left
    show (l ++ [n])[j]? = some o
    rw [List.getElem?_append_left hlt]
    exact hj
  | onlyOldFlip i o' hn ho hoi hs =>
    by_cases hij : i = j
    · subst hij
      rw [hoi] at hj
      cases hj
      exact Or.inr (Or.inl ⟨getCondition_type ho hoi, hn, hs, List.getElem?_set_self hlt⟩)
    · left
      show (l.set i _)[j]? = some o
      rw [List.getElem?_set_ne hij]
      exact hj
  | onlyOldKeep i o' hn ho hoi hs => exact Or.inl hj
  | bothOverwrite i o' k n hn hnk ho hoi hm =>
    by_cases hij : i = j
    · subst hij
      rw [hoi] at hj
      cases hj
      exact Or.inr (Or.inr ⟨getCondition_type ho hoi, k, n, hn, hnk,
        List.getElem?_set_self hlt⟩)
    · left
      show (l.set i _)[j]? = some o
      rw [List.getElem?_set_ne hij]
      exact hj
  | bothKeep i o' k n hn hnk ho hoi hm => exact Or.inl hj

/-- Over distinct types, the entry at a position of the input list is returned as it was,
or flipped to healthy by the iteration of its type, or overwritten by it. -/
theorem updateConditionsLoop_entry {now : NamespaceConditionType → Time}
    {new : List NamespaceCondition} {cts : List NamespaceConditionType}
    (hnd : cts.Nodup)
    {l : List NamespaceCondition} {ch : Bool} {r : List NamespaceCondition × Bool}
    (h : updateConditionsLoop now new cts (l, ch) = some r)
    {j : Nat} {o : NamespaceCondition} (hj : l[j]? = some o) :
    r.1[j]? = some o ∨
    (o.Type_ ∈ cts ∧ getCondition new o.Type_ = none ∧ o.Status ≠ ConditionFalse ∧
      r.1[j]? = some (clearedCondition (now o.Type_) o.Type_ o)) ∨
    (o.Type_ ∈ cts ∧ ∃ k n, getCondition new o.Type_ = some k ∧ new[k]? = some n ∧
      r.1[j]? = some (overwrittenCondition (now o.Type_) o n)) := by
  induction cts generalizing l ch with
  | nil =>
    cases h
    exact Or.inl hj
  | cons t rest ih =>
    obtain ⟨⟨l1, ch1⟩, hp, hr⟩ := updateConditionsLoop_cons h
    rw [List.nodup_cons] at hnd
    rcases hp.entry hj with h1 | ⟨ht, hn, hs, h1⟩ | ⟨ht, k, n, hn, hnk, h1⟩
    · rcases ih hnd.2 hr h1 with h2 | ⟨hm, h2⟩ | ⟨hm, h2⟩
      · exact Or.inl h2
      · exact Or.inr (Or.inl ⟨List.mem_cons_of_mem _ hm, h2⟩)
      · exact Or.inr (Or.inr ⟨List.mem_cons_of_mem _ hm, h2⟩)
    · subst ht
      right
      left
      refine ⟨List.mem_cons_self _ _, hn, hs, ?_⟩
      exact updateConditionsLoop_untouched hr h1 hnd.1
    · subst ht
      right
      right
      refine ⟨List.mem_cons_self _ _, k, n, hn, hnk, ?_⟩
      refine updateConditionsLoop_untouched hr h1 ?_
      show n.Type_ ∉ rest
      rw [getCondition_type hn hnk]
      exact hnd.1

theorem countType_append (a b : List NamespaceCondition) (t : NamespaceConditionType) :
    countType (a ++ b) t = countType a t + countType b t := by
  simp [countType, List.countP_append]

/-- The derived list of a fresh builder holds one discovery condition per call of
`ProcessDiscoverResourcesErr`, one parsing condition per call of `ProcessGroupVersionErr`
and no content condition; it collects one error per call of `ProcessDeleteContentErr`. -/
theorem runReports_fresh_count (calls : List Report) :
    countType (runReports calls freshUpdater).newConditions
        NamespaceDeletionDiscoveryFailure = calls.countP Report.isDiscoverResourcesErr ∧
    countType (runReports calls freshUpdater).newConditions
        NamespaceDeletionGVParsingFailure = calls.countP Report.isGroupVersionErr ∧
    countType (runReports calls freshUpdater).newConditions
        NamespaceDeletionContentFailure = 0 ∧
    (runReports calls freshUpdater).deleteContentErrors.length =
      calls.countP Report.isDeleteContentErr := by
  rw [runReports_newConditions, runReports_deleteContentErrors]
  simp only [freshUpdater, List.nil_append]
  induction calls with
  | nil => simp [countType]
  | cons call rest ih =>
    obtain ⟨h1, h2, h3, h4⟩ := ih
    have hd : NamespaceDeletionDiscoveryFailure ≠ NamespaceDeletionGVParsingFailure := by
      decide
    have hc : NamespaceDeletionDiscoveryFailure ≠ NamespaceDeletionContentFailure := by
      decide
    have hg : NamespaceDeletionGVParsingFailure ≠ NamespaceDeletionContentFailure := by
      decide
    cases call with
    | discoverResourcesErr now1 now2 err =>
      simp [countType, List.countP_cons, Report.derived, Report.collected, Report.run,
        ProcessDiscoverResourcesErr, freshUpdater, Report.isDiscoverResourcesErr,
        Report.isGroupVersionErr, Report.isDeleteContentErr, hd, hc] at h1 h2 h3 h4 ⊢
      exact ⟨h1, h2, h3, h4⟩
    | groupVersionErr now1 now2 err =>
      simp [countType, List.countP_cons, Report.derived, Report.collected, Report.run,
        ProcessGroupVersionErr, freshUpdater, Report.isDiscoverResourcesErr,
        Report.isGroupVersionErr, Report.isDeleteContentErr, hd.symm, hg] at h1 h2 h3 h4 ⊢
      exact ⟨h1, h2, h3, h4⟩
    | deleteContentErr err =>
      simp [countType, List.countP_cons, Report.derived, Report.collected, Report.run,
        ProcessDeleteContentErr, freshUpdater, Report.isDiscoverResourcesErr,
        Report.isGroupVersionErr, Report.isDeleteContentErr] at h1 h2 h3 h4 ⊢
      exact ⟨h1, h2, h3, h4⟩

/-! ## The claims -/

/-- Claim C1. Clearing flips to healthy, not to absence: when the old list's entry of a
managed type `ct` (found at position `i`) has a state other than `False` and the new list
has no entry of type `ct`, `updateConditions` returns `changed = true` and a list whose
entry of type `ct` is still at position `i`, with state `False`, the fixed OK message and
reason of `ct`, `LastTransitionTime` equal to the clock reading, and the `Type` and
`LastProbeTime` it had. -/
theorem clearing_flips_to_healthy (now : NamespaceConditionType → Time)
    (old new : List NamespaceCondition) (ct : NamespaceConditionType)
    (i : Nat) (o : NamespaceCondition)
    (hct : ct ∈ conditionTypes)
    (hold : getCondition old ct = some i) (hoi : old[i]? = some o)
    (hs : o.Status ≠ ConditionFalse)
    (hnew : ∀ n ∈ new, n.Type_ ≠ ct) :
    ∃ res c, updateConditions now old new = some (res, true) ∧
      getCondition res ct = some i ∧ res[i]? = some c ∧
      c.Status = ConditionFalse ∧
      (ct, c.Message, c.Reason) ∈
        [(NamespaceDeletionDiscoveryFailure,
            "All resources successfully discovered", "ResourcesDiscovered"),
         (NamespaceDeletionGVParsingFailure,
            "All legacy kube types successfully parsed", "ParsedGroupVersions"),
         (NamespaceDeletionContentFailure,
            "All content successfully deleted", "ContentDeleted")] ∧
      c.LastTransitionTime = now ct ∧
      c.Type_ = o.Type_ ∧ c.LastProbeTime = o.LastProbeTime := by
  obtain ⟨l1, ch1, s, ⟨res, ch⟩, hs1, hr, hg1, hk1, -, hk2, hg2, hf⟩ :=
    updateConditions_focus now old new hct
  have hn : getCondition new ct = none := getCondition_eq_none.2 hnew
  have ho1 : getCondition l1 ct = some i := hg1.trans hold
  have hoi1 : l1[i]? = some o := hk1 i o hoi (getCondition_type hold hoi)
  rw [updateConditionsBody_onlyOldFlip hn ho1 hoi1 hs] at hs1
  cases hs1
  have hlt := getCondition_lt ho1
  have hset : (l1.set i (clearedCondition (now ct) ct o))[i]? =
      some (clearedCondition (now ct) ct o) := List.getElem?_set_self hlt
  have hty : (clearedCondition (now ct) ct o).Type_ = ct :=
    (getCondition_type hold hoi : o.Type_ = ct)
  have hch : ch = true := hf rfl
  subst hch
  refine ⟨res, clearedCondition (now ct) ct o, hr, ?_, hk2 i _ hset hty, rfl,
    okPair_table hct, rfl, rfl, rfl⟩
  rw [hg2]
  exact (getCondition_set_type hoi1
    (rfl : (clearedCondition (now ct) ct o).Type_ = o.Type_) ct).trans ho1

/-- Claim C1, at a concrete input: a failing discovery condition merged against an empty
new list. -/
theorem clearing_flips_to_healthy_witness :
    (NamespaceDeletionDiscoveryFailure ∈ conditionTypes ∧
      getCondition [exampleDiscovery] NamespaceDeletionDiscoveryFailure = some 0 ∧
      [exampleDiscovery][0]? = some exampleDiscovery ∧
      exampleDiscovery.Status ≠ ConditionFalse ∧
      ∀ n ∈ ([] : List NamespaceCondition), n.Type_ ≠ NamespaceDeletionDiscoveryFailure) ∧
    (∃ res c, updateConditions exampleClock [exampleDiscovery] [] = some (res, true) ∧
      getCondition res NamespaceDeletionDiscoveryFailure = some 0 ∧ res[0]? = some c ∧
      c.Status = ConditionFalse ∧
      (NamespaceDeletionDiscoveryFailure, c.Message, c.Reason) ∈
        [(NamespaceDeletionDiscoveryFailure,
            "All resources successfully discovered", "ResourcesDiscovered"),
         (NamespaceDeletionGVParsingFailure,
            "All legacy kube types successfully parsed", "ParsedGroupVersions"),
         (NamespaceDeletionContentFailure,
            "All content successfully deleted", "ContentDeleted")] ∧
      c.LastTransitionTime = exampleClock NamespaceDeletionDiscoveryFailure ∧
      c.Type_ = exampleDiscovery.Type_ ∧
      c.LastProbeTime = exampleDiscovery.LastProbeTime) ∧
    updateConditions exampleClock [exampleDiscovery] [] =
      some ([{ exampleDiscovery with
                Status := "False"
                Message := "All resources successfully discovered"
                Reason := "ResourcesDiscovered"
                LastTransitionTime := 9 }], true) :=
  ⟨⟨by decide, by decide, by decide, by decide, by decide⟩,
    clearing_flips_to_healthy exampleClock [exampleDiscovery] []
      NamespaceDeletionDiscoveryFailure 0 exampleDiscovery
      (by decide) (by decide) (by decide) (by decide) (by decide),
    by decide⟩

/-- Claim C2. Differing messages overwrite in place: when the old list and the new list
both hold an entry of a managed type `ct` (the old one at position `i`) and their messages
differ, `updateConditions` returns `changed = true` and a list whose entry at position `i`
has the `Type`, `Status`, `LastProbeTime`, `Reason` and `Message` of the new entry; the
entry of type `ct` is still found at `i`, and no position beyond the old list holds an
entry of type `ct`. -/
theorem differing_messages_overwrite (now : NamespaceConditionType → Time)
    (old new : List NamespaceCondition) (ct : NamespaceConditionType)
    (i k : Nat) (o n : NamespaceCondition)
    (hct : ct ∈ conditionTypes)
    (hold : getCondition old ct = some i) (hoi : old[i]? = some o)
    (hnew : getCondition new ct = some k) (hnk : new[k]? = some n)
    (hm : o.Message ≠ n.Message) :
    ∃ res c, updateConditions now old new = some (res, true) ∧
      getCondition res ct = some i ∧ res[i]? = some c ∧
      c.Type_ = n.Type_ ∧ c.Status = n.Status ∧ c.LastProbeTime = n.LastProbeTime ∧
      c.Reason = n.Reason ∧ c.Message = n.Message ∧
      ∀ (j : Nat) (d : NamespaceCondition),
        old.length ≤ j → res[j]? = some d → d.Type_ ≠ ct := by
  obtain ⟨res, hr, hg, hi⟩ := updateConditions_overwrite now hct hold hoi hnew hnk hm
  refine ⟨res, _, hr, hg, hi, rfl, rfl, rfl, rfl, rfl, ?_⟩
  intro j d hj hd hty
  have := (updateConditionsLoop_appended conditionTypes_nodup hr hj hd).2.2
  rw [hty, hold] at this
  cases this

/-- Claim C2, at a concrete input: a discovery condition and a failing content condition
with message `M1`, merged against a new content condition with message `M2`. -/
theorem differing_messages_overwrite_witness :
    (NamespaceDeletionContentFailure ∈ conditionTypes ∧
      getCondition [exampleDiscovery, exampleContentM1] NamespaceDeletionContentFailure =
        some 1 ∧
      [exampleDiscovery, exampleContentM1][1]? = some exampleContentM1 ∧
      getCondition [exampleContentM2] NamespaceDeletionContentFailure = some 0 ∧
      [exampleContentM2][0]? = some exampleContentM2 ∧
      exampleContentM1.Message ≠ exampleContentM2.Message) ∧
    ∃ res c,
      updateConditions exampleClock [exampleDiscovery, exampleContentM1] [exampleContentM2] =
        some (res, true) ∧
      getCondition res NamespaceDeletionContentFailure = some 1 ∧ res[1]? = some c ∧
      c.Type_ = exampleContentM2.Type_ ∧ c.Status = exampleContentM2.Status ∧
      c.LastProbeTime = exampleContentM2.LastProbeTime ∧
      c.Reason = exampleContentM2.Reason ∧ c.Message = exampleContentM2.Message ∧
      ∀ (j : Nat) (d : NamespaceCondition),
        [exampleDiscovery, exampleContentM1].length ≤ j → res[j]? = some d →
          d.Type_ ≠ NamespaceDeletionContentFailure :=
  ⟨⟨by decide, by decide, by decide, by decide, by decide, by decide⟩,
    differing_messages_overwrite exampleClock [exampleDiscovery, exampleContentM1]
      [exampleContentM2] NamespaceDeletionContentFailure 1 0 exampleContentM1
      exampleContentM2 (by decide) (by decide) (by decide) (by decide) (by decide)
      (by decide)⟩

/-- Claim C3. The transition time moves only on a state flip: when the old list and the
new list both hold an entry of a managed type `ct` and their messages differ, the entry
that results has the new message, and its `LastTransitionTime` is the one the old entry
had if the two states are equal and is the clock reading if they differ; it is never taken
from the new list: whatever `LastTransitionTime`s the new list's entries carry, the entry
that results is the same. -/
theorem transition_time_only_on_flip (now : NamespaceConditionType → Time)
    (old new : List NamespaceCondition) (ct : NamespaceConditionType)
    (i k : Nat) (o n : NamespaceCondition)
    (hct : ct ∈ conditionTypes)
    (hold : getCondition old ct = some i) (hoi : old[i]? = some o)
    (hnew : getCondition new ct = some k) (hnk : new[k]? = some n)
    (hm : o.Message ≠ n.Message) :
    ∃ res changed c, updateConditions now old new = some (res, changed) ∧
      res[i]? = some c ∧ c.Message = n.Message ∧
      (o.Status = n.Status → c.LastTransitionTime = o.LastTransitionTime) ∧
      (o.Status ≠ n.Status → c.LastTransitionTime = now ct) ∧
      ∀ f : NamespaceCondition → Time, ∃ res' changed',
        updateConditions now old (withTransitionTimes f new) = some (res', changed') ∧
        res'[i]? = some c := by
  obtain ⟨res, hr, -, hi⟩ := updateConditions_overwrite now hct hold hoi hnew hnk hm
  refine ⟨res, true, _, hr, hi, rfl, ?_, ?_, ?_⟩
  · intro he
    simp [overwrittenCondition, he]
  · intro hne
    simp [overwrittenCondition, hne]
  · intro f
    have hnew' : getCondition (withTransitionTimes f new) ct = some k :=
      (getCondition_withTransitionTimes f new ct).trans hnew
    have hnk' : (withTransitionTimes f new)[k]? =
        some { n with LastTransitionTime := f n } := by
      simp [withTransitionTimes, hnk]
    obtain ⟨res', hr', -, hi'⟩ :=
      updateConditions_overwrite now hct hold hoi hnew' hnk' hm
    exact ⟨res', true, hr', hi'⟩

/-- Claim C3, at a concrete input: an old failing content condition with message `M1`
merged against a new failing content condition with message `M2` ends with message `M2`
and the transition time it had before. -/
theorem transition_time_only_on_flip_witness :
    (NamespaceDeletionContentFailure ∈ conditionTypes ∧
      getCondition [exampleContentM1] NamespaceDeletionContentFailure = some 0 ∧
      [exampleContentM1][0]? = some exampleContentM1 ∧
      getCondition [exampleContentM2] NamespaceDeletionContentFailure = some 0 ∧
      [exampleContentM2][0]? = some exampleContentM2 ∧
      exampleContentM1.Message ≠ exampleContentM2.Message) ∧
    (∃ res changed c,
      updateConditions exampleClock [exampleContentM1] [exampleContentM2] =
        some (res, changed) ∧
      res[0]? = some c ∧ c.Message = exampleContentM2.Message ∧
      (exampleContentM1.Status = exampleContentM2.Status →
        c.LastTransitionTime = exampleContentM1.LastTransitionTime) ∧
      (exampleContentM1.Status ≠ exampleContentM2.Status →
        c.LastTransitionTime = exampleClock NamespaceDeletionContentFailure) ∧
      ∀ f : NamespaceCondition → Time, ∃ res' changed',
        updateConditions exampleClock [exampleContentM1]
          (withTransitionTimes f [exampleContentM2]) = some (res', changed') ∧
        res'[0]? = some c) ∧
    updateConditions exampleClock [exampleContentM1] [exampleContentM2] =
      some ([{ exampleContentM2 with LastTransitionTime := 4 }], true) :=
  ⟨⟨by decide, by decide, by decide, by decide, by decide, by decide⟩,
    transition_time_only_on_flip exampleClock [exampleContentM1] [exampleContentM2]
      NamespaceDeletionContentFailure 0 0 exampleContentM1 exampleContentM2
      (by decide) (by decide) (by decide) (by decide) (by decide) (by decide),
    by decide⟩

/-- Claim C4. Equal messages mean no mutation: when the old list and the new list both
hold an entry of a managed type `ct` (the old one at position `i`) with equal messages,
whatever the other fields of the new entry, the entry at position `i` of the result is the
old entry, and the whole result (list and `changed` flag) is what the loop returns when it
skips `ct`: the category contributes nothing. -/
theorem equal_messages_no_mutation (now : NamespaceConditionType → Time)
    (old new : List NamespaceCondition) (ct : NamespaceConditionType)
    (i k : Nat) (o n : NamespaceCondition)
    (hct : ct ∈ conditionTypes)
    (hold : getCondition old ct = some i) (hoi : old[i]? = some o)
    (hnew : getCondition new ct = some k) (hnk : new[k]? = some n)
    (hm : o.Message = n.Message) :
    ∃ res changed, updateConditions now old new = some (res, changed) ∧
      res[i]? = some o ∧
      updateConditionsLoop now new (conditionTypes.erase ct) (old, false) =
        some (res, changed) := by
  obtain ⟨pre, post, hsplit, hpre, hpost, herase⟩ := conditionTypes_split hct
  obtain ⟨⟨l1, ch1⟩, h1⟩ := updateConditionsLoop_total now new pre (old, false)
  obtain ⟨⟨res, ch⟩, hr⟩ := updateConditionsLoop_total now new post (l1, ch1)
  have ho1 : getCondition l1 ct = some i :=
    (updateConditionsLoop_getCondition h1 hpre).trans hold
  have hoi1 : l1[i]? = some o :=
    updateConditionsLoop_untouched h1 hoi (by rw [getCondition_type hold hoi]; exact hpre)
  have hskip : updateConditionsLoop now new (conditionTypes.erase ct) (old, false) =
      some (res, ch) := by
    rw [herase, updateConditionsLoop_append, h1]
    exact hr
  refine ⟨res, ch, ?_, ?_, hskip⟩
  · unfold updateConditions
    rw [hsplit, updateConditionsLoop_append, h1]
    simp [updateConditionsLoop, updateConditionsBody_bothKeep hnew hnk ho1 hoi1 hm, hr]
  · refine updateConditionsLoop_untouched hskip hoi ?_
    rw [getCondition_type hold hoi, herase]
    simp [hpre, hpost]

/-- Claim C4, at a concrete input: a failing content condition with message `M1` merged
against a healthy content condition that carries the same message, another reason and
other timestamps. -/
theorem equal_messages_no_mutation_witness :
    (NamespaceDeletionContentFailure ∈ conditionTypes ∧
      getCondition [exampleContentM1] NamespaceDeletionContentFailure = some 0 ∧
      [exampleContentM1][0]? = some exampleContentM1 ∧
      getCondition [exampleContentHealthyM1] NamespaceDeletionContentFailure = some 0 ∧
      [exampleContentHealthyM1][0]? = some exampleContentHealthyM1 ∧
      exampleContentM1.Message = exampleContentHealthyM1.Message ∧
      exampleContentM1.Status ≠ exampleContentHealthyM1.Status) ∧
    (∃ res changed,
      updateConditions exampleClock [exampleContentM1] [exampleContentHealthyM1] =
        some (res, changed) ∧
      res[0]? = some exampleContentM1 ∧
      updateConditionsLoop exampleClock [exampleContentHealthyM1]
        (conditionTypes.erase NamespaceDeletionContentFailure) ([exampleContentM1], false) =
          some (res, changed)) ∧
    updateConditions exampleClock [exampleContentM1] [exampleContentHealthyM1] =
      some ([exampleContentM1], false) :=
  ⟨⟨by decide, by decide, by decide, by decide, by decide, by decide, by decide⟩,
    equal_messages_no_mutation exampleClock [exampleContentM1] [exampleContentHealthyM1]
      NamespaceDeletionContentFailure 0 0 exampleContentM1 exampleContentHealthyM1
      (by decide) (by decide) (by decide) (by decide) (by decide) (by decide),
    by decide⟩

/-- Claim C5. Only-new entries are appended verbatim: when the old list has no entry of a
managed type `ct` and the new list has one, `updateConditions` returns `changed = true`
and a list that holds, at a position beyond the old list, a copy of the new list's first
entry of type `ct`, equal in every field; that copy is the result's entry of type `ct`. -/
theorem only_new_appended_verbatim (now : NamespaceConditionType → Time)
    (old new : List NamespaceCondition) (ct : NamespaceConditionType)
    (k : Nat) (n : NamespaceCondition)
    (hct : ct ∈ conditionTypes)
    (hold : ∀ c ∈ old, c.Type_ ≠ ct)
    (hnew : getCondition new ct = some k) (hnk : new[k]? = some n) :
    ∃ res j, updateConditions now old new = some (res, true) ∧
      old.length ≤ j ∧ res[j]? = some n ∧ getCondition res ct = some j := by
  obtain ⟨l1, ch1, s, ⟨res, ch⟩, hs1, hr, hg1, -, hlen, hk2, hg2, hf⟩ :=
    updateConditions_focus now old new hct
  have ho1 : getCondition l1 ct = none := hg1.trans (getCondition_eq_none.2 hold)
  rw [updateConditionsBody_onlyNew hnew hnk ho1] at hs1
  cases hs1
  have hch : ch = true := hf rfl
  subst hch
  have hat : (l1 ++ [n])[l1.length]? = some n := by simp
  have hty : n.Type_ = ct := getCondition_type hnew hnk
  refine ⟨res, l1.length, hr, hlen, hk2 _ _ hat hty, ?_⟩
  rw [hg2]
  simp only
  rw [getCondition_append_of_none ho1, getCondition_cons]
  simp [hty]

/-- Claim C5, at a concrete input: a list with only a discovery condition merged against
a new list with two content conditions, the first of which is appended. -/
theorem only_new_appended_verbatim_witness :
    (NamespaceDeletionContentFailure ∈ conditionTypes ∧
      (∀ c ∈ [exampleDiscovery], c.Type_ ≠ NamespaceDeletionContentFailure) ∧
      getCondition [exampleContentM2, exampleContentM1] NamespaceDeletionContentFailure =
        some 0 ∧
      [exampleContentM2, exampleContentM1][0]? = some exampleContentM2) ∧
    (∃ res j,
      updateConditions exampleClock [exampleDiscovery] [exampleContentM2, exampleContentM1] =
        some (res, true) ∧
      [exampleDiscovery].length ≤ j ∧ res[j]? = some exampleContentM2 ∧
      getCondition res NamespaceDeletionContentFailure = some j) ∧
    updateConditions exampleClock [exampleDiscovery] [exampleContentM2, exampleContentM1] =
      some ([{ exampleDiscovery with
                Status := "False"
                Message := "All resources successfully discovered"
                Reason := "ResourcesDiscovered"
                LastTransitionTime := 9 }, exampleContentM2], true) :=
  ⟨⟨by decide, by decide, by decide, by decide⟩,
    only_new_appended_verbatim exampleClock [exampleDiscovery]
      [exampleContentM2, exampleContentM1] NamespaceDeletionContentFailure 0
      exampleContentM2 (by decide) (by decide) (by decide) (by decide),
    by decide⟩

/-- Claim C6. The changed flag is exact: `updateConditions` returns `changed = false`
exactly when the list it returns is equal to the old list. -/
theorem changed_flag_exact (now : NamespaceConditionType → Time)
    (old new : List NamespaceCondition) :
    ∃ res changed, updateConditions now old new = some (res, changed) ∧
      (changed = false ↔ res = old) := by
  obtain ⟨⟨res, changed⟩, hr⟩ := updateConditionsLoop_total now new conditionTypes (old, false)
  refine ⟨res, changed, hr, ?_⟩
  rcases updateConditionsLoop_exact conditionTypes_nodup hr with he | ⟨hf, hne⟩
  · cases he
    simp
  · simp only at hf hne
    simp [hf, hne]

/-- Claim C7. Merging is idempotent: whatever the two clocks, merging the result of a
merge against the same new list again returns `changed = false` and the same list. -/
theorem merge_idempotent (now later : NamespaceConditionType → Time)
    (old new : List NamespaceCondition) :
    ∃ l1 c1, updateConditions now old new = some (l1, c1) ∧
      updateConditions later l1 new = some (l1, false) := by
  obtain ⟨⟨l1, c1⟩, hr⟩ := updateConditionsLoop_total now new conditionTypes (old, false)
  refine ⟨l1, c1, hr, ?_⟩
  exact updateConditionsLoop_of_settled later false
    fun t ht => updateConditionsLoop_settles hr (Or.inl ht)

/-- Claim C8. A single entry per type is preserved: if no two entries of the old list
share a type then, whatever the new list, no two entries of the list `updateConditions`
returns share a type; and the same holds for the list left by any finite sequence of
merges that starts from the old list. -/
theorem single_entry_per_type_preserved (now : NamespaceConditionType → Time)
    (old new : List NamespaceCondition) (h : singleEntryPerType old) :
    (∃ res changed, updateConditions now old new = some (res, changed) ∧
      singleEntryPerType res) ∧
    ∀ merges, ∃ res, updateConditionsSeq merges old = some res ∧
      singleEntryPerType res := by
  constructor
  · obtain ⟨⟨res, changed⟩, hr⟩ :=
      updateConditionsLoop_total now new conditionTypes (old, false)
    exact ⟨res, changed, hr, updateConditionsLoop_nodup hr h⟩
  · intro merges
    exact updateConditionsSeq_single merges old h

/-- Claim C8, at a concrete input: a list with one discovery and one content condition
merged against a new list that holds the same category twice. -/
theorem single_entry_per_type_preserved_witness :
    singleEntryPerType [exampleDiscovery, exampleContentM1] ∧
    ((∃ res changed,
        updateConditions exampleClock [exampleDiscovery, exampleContentM1]
          [exampleContentM2, exampleContentM2] = some (res, changed) ∧
        singleEntryPerType res) ∧
      ∀ merges, ∃ res,
        updateConditionsSeq merges [exampleDiscovery, exampleContentM1] = some res ∧
        singleEntryPerType res) :=
  ⟨by decide,
    single_entry_per_type_preserved exampleClock [exampleDiscovery, exampleContentM1]
      [exampleContentM2, exampleContentM2] (by decide)⟩

/-- Claim C9. No entry for a never-seen category: for each managed type, the list that
`updateConditions` returns holds an entry of that type exactly when the old list or the
new list holds one; and its length is the old list's length plus the number of managed
types that the new list holds and the old list does not. -/
theorem no_entry_for_never_seen_category (now : NamespaceConditionType → Time)
    (old new : List NamespaceCondition) :
    ∃ res changed, updateConditions now old new = some (res, changed) ∧
      (∀ ct ∈ conditionTypes,
        (∃ c ∈ res, c.Type_ = ct) ↔ (∃ c ∈ old, c.Type_ = ct) ∨ (∃ c ∈ new, c.Type_ = ct)) ∧
      res.length = old.length +
        (conditionTypes.filter fun ct =>
          (new.any fun c => decide (c.Type_ = ct)) &&
            !(old.any fun c => decide (c.Type_ = ct))).length := by
  obtain ⟨⟨res, changed⟩, hr⟩ := updateConditionsLoop_total now new conditionTypes (old, false)
  refine ⟨res, changed, hr, ?_, ?_⟩
  · intro ct hct
    constructor
    · rintro ⟨c, hc, hty⟩
      obtain ⟨j, hj⟩ := List.mem_iff_getElem?.1 hc
      by_cases hlt : j < old.length
      · left
        obtain ⟨c', hc', hty'⟩ :=
          updateConditionsLoop_type_at hr (List.getElem?_eq_getElem hlt)
        simp only at hc'
        rw [hj] at hc'
        cases hc'
        exact ⟨old[j], List.getElem_mem hlt, hty'.symm.trans hty⟩
      · right
        exact ⟨c, (updateConditionsLoop_appended conditionTypes_nodup hr
          (Nat.le_of_not_lt hlt) hj).1, hty⟩
    · rintro (⟨c, hc, hty⟩ | ⟨c, hc, hty⟩)
      · obtain ⟨j, hj⟩ := List.mem_iff_getElem?.1 hc
        obtain ⟨c', hc', hty'⟩ := updateConditionsLoop_type_at hr hj
        exact ⟨c', List.getElem?_mem hc', hty'.trans hty⟩
      · have hsome : (getCondition new ct).isSome = true :=
          (getCondition_isSome_iff new ct).2 ⟨c, hc, hty⟩
        obtain ⟨k, hk⟩ := Option.isSome_iff_exists.1 hsome
        obtain ⟨n, hnk, -⟩ := getCondition_getElem hk
        obtain ⟨i, o, hi, hoi, -⟩ :=
          (updateConditionsLoop_settles hr (Or.inl hct)).1 k n hk hnk
        exact ⟨o, List.getElem?_mem hoi, getCondition_type hi hoi⟩
  · rw [updateConditionsLoop_length conditionTypes_nodup hr]
    congr 3
    funext ct
    rw [getCondition_isSome, ← getCondition_isSome old ct]
    cases getCondition old ct <;> simp

/-- Claim C10. Existing entries stay in place: the list that `updateConditions` returns is
at least as long as the old list; at every position of the old list it holds an entry of
the same `Type`; an old entry whose `Type` is not a managed type is there unchanged in
every field; and every entry beyond the old list's length is a copy of an entry of the new
list. -/
theorem existing_entries_stay_in_place (now : NamespaceConditionType → Time)
    (old new : List NamespaceCondition) :
    ∃ res changed, updateConditions now old new = some (res, changed) ∧
      old.length ≤ res.length ∧
      (∀ (i : Nat) (c : NamespaceCondition), old[i]? = some c →
        ∃ c', res[i]? = some c' ∧ c'.Type_ = c.Type_) ∧
      (∀ (i : Nat) (c : NamespaceCondition), old[i]? = some c →
        c.Type_ ∉ conditionTypes → res[i]? = some c) ∧
      (∀ (j : Nat) (c : NamespaceCondition), old.length ≤ j →
        res[j]? = some c → c ∈ new) := by
  obtain ⟨⟨res, changed⟩, hr⟩ := updateConditionsLoop_total now new conditionTypes (old, false)
  refine ⟨res, changed, hr, updateConditionsLoop_length_le hr, ?_, ?_, ?_⟩
  · intro i c hi
    exact updateConditionsLoop_type_at hr hi
  · intro i c hi hc
    exact updateConditionsLoop_untouched hr hi hc
  · intro j c hj hc
    exact (updateConditionsLoop_appended conditionTypes_nodup hr hj hc).1

/-- Claim C11. An already-healthy entry is not churned: when the old list's entry of a
managed type `ct` (found at position `i`) has state `False` and the new list has no entry
of type `ct`, the entry at position `i` of the result is the old entry, whatever its
message and reason, and the whole result (list and `changed` flag) is what the loop
returns when it skips `ct`: the category contributes nothing. -/
theorem healthy_entry_not_churned (now : NamespaceConditionType → Time)
    (old new : List NamespaceCondition) (ct : NamespaceConditionType)
    (i : Nat) (o : NamespaceCondition)
    (hct : ct ∈ conditionTypes)
    (hold : getCondition old ct = some i) (hoi : old[i]? = some o)
    (hs : o.Status = ConditionFalse)
    (hnew : ∀ n ∈ new, n.Type_ ≠ ct) :
    ∃ res changed, updateConditions now old new = some (res, changed) ∧
      res[i]? = some o ∧
      updateConditionsLoop now new (conditionTypes.erase ct) (old, false) =
        some (res, changed) :=
  updateConditions_skip now hct hold hoi fun _ _ hl hli =>
    updateConditionsBody_onlyOldKeep (getCondition_eq_none.2 hnew) hl hli hs

/-- Claim C11, at a concrete input: a healthy content condition whose message and reason
are not the fixed OK pair, merged against an empty new list. -/
theorem healthy_entry_not_churned_witness :
    (NamespaceDeletionContentFailure ∈ conditionTypes ∧
      getCondition [exampleContentHealthyM1] NamespaceDeletionContentFailure = some 0 ∧
      [exampleContentHealthyM1][0]? = some exampleContentHealthyM1 ∧
      exampleContentHealthyM1.Status = ConditionFalse ∧
      ∀ n ∈ ([] : List NamespaceCondition), n.Type_ ≠ NamespaceDeletionContentFailure) ∧
    (∃ res changed,
      updateConditions exampleClock [exampleContentHealthyM1] [] = some (res, changed) ∧
      res[0]? = some exampleContentHealthyM1 ∧
      updateConditionsLoop exampleClock []
        (conditionTypes.erase NamespaceDeletionContentFailure)
        ([exampleContentHealthyM1], false) = some (res, changed)) ∧
    updateConditions exampleClock [exampleContentHealthyM1] [] =
      some ([exampleContentHealthyM1], false) :=
  ⟨⟨by decide, by decide, by decide, by decide, by decide⟩,
    healthy_entry_not_churned exampleClock [exampleContentHealthyM1] []
      NamespaceDeletionContentFailure 0 exampleContentHealthyM1
      (by decide) (by decide) (by decide) (by decide) (by decide),
    by decide⟩

/-- Claim C12. Batched content errors are order-independent: for two lists of errors that
are permutations of each other, `makeDeleteContentCondition` returns conditions with the
same `Type`, `Status`, `Reason` and `Message`, whatever the clock readings. -/
theorem batched_content_errors_order_independent (now1 now2 later1 later2 : Time)
    (errs errs' : List GoError) (h : errs.Perm errs') :
    (makeDeleteContentCondition now1 now2 errs).map NamespaceCondition.content =
      (makeDeleteContentCondition later1 later2 errs').map NamespaceCondition.content := by
  have hsort : sortStrings (errs.map GoError.Error) = sortStrings (errs'.map GoError.Error) :=
    sortStrings_eq_of_perm (h.map _)
  have hlen : errs.length = errs'.length := h.length_eq
  unfold makeDeleteContentCondition
  rw [hsort, hlen]
  split <;> rfl

/-- Claim C12, at a concrete input: the errors `b failed`, `a failed` in the two orders. -/
theorem batched_content_errors_order_independent_witness :
    [GoError.other "b failed", GoError.other "a failed"].Perm
      [GoError.other "a failed", GoError.other "b failed"] ∧
    (makeDeleteContentCondition 1 2
        [GoError.other "b failed", GoError.other "a failed"]).map NamespaceCondition.content =
      (makeDeleteContentCondition 3 4
        [GoError.other "a failed", GoError.other "b failed"]).map NamespaceCondition.content ∧
    (makeDeleteContentCondition 1 2
        [GoError.other "b failed", GoError.other "a failed"]).map NamespaceCondition.Message =
      some "Failed to delete all resource types, 2 remaining: a failed, b failed" ∧
    (makeDeleteContentCondition 3 4
        [GoError.other "a failed", GoError.other "b failed"]).map NamespaceCondition.Message =
      some "Failed to delete all resource types, 2 remaining: a failed, b failed" :=
  ⟨List.Perm.swap _ _ _,
    batched_content_errors_order_independent 1 2 3 4 _ _ (List.Perm.swap _ _ _),
    by decide, by decide⟩

/-- Claim C13. `makeDeleteContentCondition` returns no condition exactly when the list of
errors is empty; for a list of `N > 0` errors it returns the condition of type
content-deletion-failure with state `True`, reason `ContentDeletionFailed` and the message
`Failed to delete all resource types, N remaining: ` followed by the error texts joined
with `, `, where the joined texts are in increasing order and are a rearrangement of the
`N` error texts (duplicates kept). -/
theorem content_condition_of_errors (now1 now2 : Time) (errs : List GoError) :
    (makeDeleteContentCondition now1 now2 errs = none ↔ errs = []) ∧
    ∀ (e : GoError) (es : List GoError), errs = e :: es →
      ∃ msgs : List String,
        msgs.Perm (errs.map GoError.Error) ∧
        msgs.Sorted (fun a b => stringLe a b = true) ∧
        msgs.length = errs.length ∧
        makeDeleteContentCondition now1 now2 errs =
          some
            { Type_ := NamespaceDeletionContentFailure
              Status := ConditionTrue
              LastProbeTime := now1
              LastTransitionTime := now2
              Reason := "ContentDeletionFailed"
              Message := "Failed to delete all resource types, " ++ toString errs.length ++
                " remaining: " ++ ", ".intercalate msgs } := by
  refine ⟨makeDeleteContentCondition_eq_none now1 now2 errs, ?_⟩
  rintro e es rfl
  refine ⟨sortStrings ((e :: es).map GoError.Error), sortStrings_perm _,
    sortStrings_sorted _, ?_, makeDeleteContentCondition_cons now1 now2 e es⟩
  rw [(sortStrings_perm _).length_eq, List.length_map]

/-- Claim C14. `ProcessDiscoverResourcesErr` appends to the derived list one condition of
type discovery-failure with state `True` and reason `DiscoveryFailed`; its message is
`Discovery failed for some groups, N failing: ` followed by the error's text when the
error is a group-discovery failure with `N` failing groups, and is the error's text for
every other error. The collected content errors are left as they are. -/
theorem discovery_failure_condition (now1 now2 : Time) (u : namespaceConditionUpdater)
    (err : GoError) :
    ∃ d : NamespaceCondition,
      (ProcessDiscoverResourcesErr now1 now2 u err).newConditions = u.newConditions ++ [d] ∧
      (ProcessDiscoverResourcesErr now1 now2 u err).deleteContentErrors =
        u.deleteContentErrors ∧
      d.Type_ = NamespaceDeletionDiscoveryFailure ∧ d.Status = ConditionTrue ∧
      d.Reason = "DiscoveryFailed" ∧
      (∀ (groups : Nat) (text : String), err = .errGroupDiscoveryFailed groups text →
        d.Message =
          "Discovery failed for some groups, " ++ toString groups ++ " failing: " ++ text) ∧
      (∀ text : String, err = .other text → d.Message = text) := by
  refine ⟨_, rfl, rfl, rfl, rfl, rfl, ?_, ?_⟩
  · rintro groups text rfl
    rfl
  · rintro text rfl
    rfl

/-- Claim C15, as stated, fails: on a namespace with no conditions, reporting the generic
discovery errors `a` then `b` and calling `Update` leaves one discovery entry, whose
message is `a`; no entry of the result has the message `b`. -/
theorem last_call_wins_counterexample :
    (Update 5 6 exampleClock
        (runReports
          [Report.discoverResourcesErr 1 2 (GoError.other "a"),
           Report.discoverResourcesErr 3 4 (GoError.other "b")] freshUpdater) []).map
        (fun r => r.2.1.map NamespaceCondition.Message) = some ["a"] ∧
    ¬ ∃ u1 res changed c,
      Update 5 6 exampleClock
        (runReports
          [Report.discoverResourcesErr 1 2 (GoError.other "a"),
           Report.discoverResourcesErr 3 4 (GoError.other "b")] freshUpdater) [] =
        some (u1, res, changed) ∧
      c ∈ res ∧ c.Type_ = NamespaceDeletionDiscoveryFailure ∧ c.Message = "b" := by
  refine ⟨by decide, ?_⟩
  rintro ⟨u1, res, changed, c, hu, hc, -, hm⟩
  have hres : (Update 5 6 exampleClock
      (runReports
        [Report.discoverResourcesErr 1 2 (GoError.other "a"),
         Report.discoverResourcesErr 3 4 (GoError.other "b")] freshUpdater) []).map
      (fun r => r.2.1.map NamespaceCondition.Message) = some ["a"] := by decide
  rw [hu] at hres
  simp only [Option.map_some', Option.some.injEq] at hres
  have hmem : c.Message ∈ res.map NamespaceCondition.Message := List.mem_map_of_mem _ hc
  rw [hres, hm] at hmem
  exact absurd hmem (by decide)

/-- Claim C15, amended. The first call wins: when a report call that derives the condition
`d` (a call of `ProcessDiscoverResourcesErr` or of `ProcessGroupVersionErr`) follows only
calls that derive no condition of the type of `d`, then, whatever calls come after it, the
entry that `Update` looks up for that type in the derived list is `d`, and the entry of
that type in the namespace's list after `Update` carries the message of `d`. -/
theorem first_call_wins (now1 now2 : Time) (now : NamespaceConditionType → Time)
    (pre rest : List Report) (call : Report) (d : NamespaceCondition)
    (old : List NamespaceCondition)
    (hcall : call.derived = some d)
    (hpre : ∀ c ∈ pre, ∀ e, c.derived = some e → e.Type_ ≠ d.Type_) :
    ∃ u1 res changed k i o,
      Update now1 now2 now (runReports (pre ++ call :: rest) freshUpdater) old =
        some (u1, res, changed) ∧
      getCondition u1.newConditions d.Type_ = some k ∧ u1.newConditions[k]? = some d ∧
      getCondition res d.Type_ = some i ∧ res[i]? = some o ∧ o.Message = d.Message := by
  rw [Update_eq]
  obtain ⟨hnc, -⟩ := withContentCondition_fresh now1 now2 (pre ++ call :: rest)
  generalize withContentCondition now1 now2
    (runReports (pre ++ call :: rest) freshUpdater) = u1 at hnc ⊢
  have hlist : (runReports (pre ++ call :: rest) freshUpdater).newConditions =
      pre.filterMap Report.derived ++ d :: rest.filterMap Report.derived := by
    rw [runReports_newConditions]
    simp [freshUpdater, List.filterMap_append, List.filterMap_cons, hcall]
  have hfirst : ∀ c ∈ pre.filterMap Report.derived, c.Type_ ≠ d.Type_ := by
    intro c hc
    obtain ⟨p, hp, hpc⟩ := List.mem_filterMap.1 hc
    exact hpre p hp c hpc
  have hk : getCondition u1.newConditions d.Type_ =
      some (pre.filterMap Report.derived).length := by
    rw [hnc, hlist]
    exact getCondition_append_of_some (getCondition_append_cons hfirst rfl) _
  have hkd : u1.newConditions[(pre.filterMap Report.derived).length]? = some d := by
    rw [hnc, hlist, List.append_assoc, List.getElem?_append_right (Nat.le_refl _)]
    simp
  have hct : d.Type_ ∈ conditionTypes := by
    rcases (Report.derived_spec hcall).2 with h | h
    · rw [h.1]
      decide
    · rw [h.1]
      decide
  obtain ⟨⟨res, changed⟩, hr⟩ :=
    updateConditionsLoop_total now u1.newConditions conditionTypes (old, false)
  obtain ⟨i, o, hi, hoi, hm⟩ :=
    (updateConditionsLoop_settles hr (Or.inl hct)).1 _ d hk hkd
  have hr' : updateConditions now old u1.newConditions = some (res, changed) := hr
  refine ⟨u1, res, changed, _, i, o, ?_, hk, hkd, hi, hoi, hm⟩
  simp only [hr', Option.some_bind]

/-- Claim C15, amended, at a concrete input: a content error, then the discovery errors
`a` and `b`, merged into a namespace with no conditions: the discovery entry carries `a`. -/
theorem first_call_wins_witness :
    ((Report.discoverResourcesErr 1 2 (GoError.other "a")).derived =
        some
          { Type_ := NamespaceDeletionDiscoveryFailure
            Status := ConditionTrue
            LastProbeTime := 2
            LastTransitionTime := 1
            Reason := "DiscoveryFailed"
            Message := "a" }) ∧
    (∃ u1 res changed k i o,
      Update 5 6 exampleClock
        (runReports
          ([Report.deleteContentErr (GoError.other "c")] ++
            Report.discoverResourcesErr 1 2 (GoError.other "a") ::
              [Report.discoverResourcesErr 3 4 (GoError.other "b")]) freshUpdater) [] =
        some (u1, res, changed) ∧
      getCondition u1.newConditions NamespaceDeletionDiscoveryFailure = some k ∧
      u1.newConditions[k]? =
        some
          { Type_ := NamespaceDeletionDiscoveryFailure
            Status := ConditionTrue
            LastProbeTime := 2
            LastTransitionTime := 1
            Reason := "DiscoveryFailed"
            Message := "a" } ∧
      getCondition res NamespaceDeletionDiscoveryFailure = some i ∧ res[i]? = some o ∧
      o.Message = "a") :=
  ⟨by decide,
    first_call_wins 5 6 exampleClock [Report.deleteContentErr (GoError.other "c")]
      [Report.discoverResourcesErr 3 4 (GoError.other "b")]
      (Report.discoverResourcesErr 1 2 (GoError.other "a"))
      { Type_ := NamespaceDeletionDiscoveryFailure
        Status := ConditionTrue
        LastProbeTime := 2
        LastTransitionTime := 1
        Reason := "DiscoveryFailed"
        Message := "a" }
      [] (by decide)
      (by
        intro c hc e he
        rw [List.mem_singleton] at hc
        subst hc
        simp [Report.derived, Report.run, ProcessDeleteContentErr, freshUpdater] at he)⟩

/-- Claim C16, as stated, fails: after two calls of `ProcessDiscoverResourcesErr` on a
fresh builder, the derived list that `Update` hands to the merger holds two entries of the
discovery type. -/
theorem derived_list_single_entry_counterexample :
    (Update 5 6 exampleClock
        (runReports
          [Report.discoverResourcesErr 1 2 (GoError.other "a"),
           Report.discoverResourcesErr 3 4 (GoError.other "b")] freshUpdater) []).map
        (fun r => countType r.1.newConditions NamespaceDeletionDiscoveryFailure) = some 2 ∧
    ¬ ∃ u1 res changed,
      Update 5 6 exampleClock
        (runReports
          [Report.discoverResourcesErr 1 2 (GoError.other "a"),
           Report.discoverResourcesErr 3 4 (GoError.other "b")] freshUpdater) [] =
        some (u1, res, changed) ∧
      ∀ ct ∈ conditionTypes, countType u1.newConditions ct ≤ 1 := by
  refine ⟨by decide, ?_⟩
  rintro ⟨u1, res, changed, hu, hall⟩
  have hcount : (Update 5 6 exampleClock
      (runReports
        [Report.discoverResourcesErr 1 2 (GoError.other "a"),
         Report.discoverResourcesErr 3 4 (GoError.other "b")] freshUpdater) []).map
      (fun r => countType r.1.newConditions NamespaceDeletionDiscoveryFailure) = some 2 := by
    decide
  rw [hu] at hcount
  simp only [Option.map_some', Option.some.injEq] at hcount
  have := hall NamespaceDeletionDiscoveryFailure (by decide)
  omega

/-- Claim C16, amended. For every sequence of report calls on a fresh builder followed by
`Update`, the derived list handed to the merger holds at most one entry of the content
type, and as many entries of the discovery type (of the parsing type) as there were calls
of `ProcessDiscoverResourcesErr` (of `ProcessGroupVersionErr`); so it holds at most one
entry of each type when each of the two functions is called at most once. -/
theorem derived_list_entries_per_category (now1 now2 : Time)
    (now : NamespaceConditionType → Time) (calls : List Report)
    (old : List NamespaceCondition) :
    ∃ u1 res changed,
      Update now1 now2 now (runReports calls freshUpdater) old = some (u1, res, changed) ∧
      countType u1.newConditions NamespaceDeletionContentFailure ≤ 1 ∧
      countType u1.newConditions NamespaceDeletionDiscoveryFailure =
        calls.countP Report.isDiscoverResourcesErr ∧
      countType u1.newConditions NamespaceDeletionGVParsingFailure =
        calls.countP Report.isGroupVersionErr := by
  rw [Update_eq]
  obtain ⟨hnc, -⟩ := withContentCondition_fresh now1 now2 calls
  obtain ⟨hd, hg, hc, -⟩ := runReports_fresh_count calls
  generalize withContentCondition now1 now2 (runReports calls freshUpdater) = u1 at hnc ⊢
  obtain ⟨⟨res, changed⟩, hr⟩ :=
    updateConditionsLoop_total now u1.newConditions conditionTypes (old, false)
  have hr' : updateConditions now old u1.newConditions = some (res, changed) := hr
  refine ⟨u1, res, changed, by simp only [hr', Option.some_bind], ?_⟩
  rw [hnc, countType_append, countType_append, countType_append, hd, hg, hc]
  cases hm : makeDeleteContentCondition now1 now2
      (runReports calls freshUpdater).deleteContentErrors with
  | none => simp [countType]
  | some c =>
    have hty := (makeDeleteContentCondition_spec hm).1
    have h1 : NamespaceDeletionContentFailure ≠ NamespaceDeletionDiscoveryFailure := by
      decide
    have h2 : NamespaceDeletionContentFailure ≠ NamespaceDeletionGVParsingFailure := by
      decide
    simp [countType, hty, h1, h2]

/-- Claim C17. End-to-end single report: a fresh builder that receives one call of
`ProcessDiscoverResourcesErr` with a generic error of text `m`, applied with `Update` to a
namespace with no conditions, returns `true` and leaves exactly one entry, of type
discovery-failure, state `True`, reason `DiscoveryFailed` and message `m`; no content
condition is derived: the derived list is that one entry. -/
theorem single_discovery_report_end_to_end (now1 now2 t1 t2 : Time)
    (now : NamespaceConditionType → Time) (m : String) :
    makeDeleteContentCondition now1 now2
      (ProcessDiscoverResourcesErr t1 t2 freshUpdater
        (GoError.other m)).deleteContentErrors = none ∧
    Update now1 now2 now
        (ProcessDiscoverResourcesErr t1 t2 freshUpdater (GoError.other m)) [] =
      some
        ({ newConditions :=
            [{ Type_ := NamespaceDeletionDiscoveryFailure
               Status := ConditionTrue
               LastProbeTime := t2
               LastTransitionTime := t1
               Reason := "DiscoveryFailed"
               Message := m }]
           deleteContentErrors := [] },
         [{ Type_ := NamespaceDeletionDiscoveryFailure
            Status := ConditionTrue
            LastProbeTime := t2
            LastTransitionTime := t1
            Reason := "DiscoveryFailed"
            Message := m }],
         true) := by
  have h1 : NamespaceDeletionDiscoveryFailure ≠ NamespaceDeletionContentFailure := by
    decide
  have h2 : NamespaceDeletionDiscoveryFailure ≠ NamespaceDeletionGVParsingFailure := by
    decide
  refine ⟨rfl, ?_⟩
  simp [Update, ProcessDiscoverResourcesErr, freshUpdater, makeDeleteContentCondition,
    updateConditions, updateConditionsLoop, updateConditionsBody, conditionTypes,
    getCondition, load, GoError.Error, h1, h2]

/-- Claim C18. A healthy entry is never created from nothing: for every sequence of report
calls on a fresh builder and every namespace, each entry that `Update` leaves beyond the
namespace's previous list has state `True`; and an entry of the result with state `False`
is either the old entry at its position, unchanged, or the old entry at its position, of a
managed type and with a state other than `False`, flipped to healthy because the derived
list holds no condition of its type. -/
theorem healthy_entry_never_created (now1 now2 : Time)
    (now : NamespaceConditionType → Time) (calls : List Report)
    (old : List NamespaceCondition) :
    ∃ u1 res changed,
      Update now1 now2 now (runReports calls freshUpdater) old = some (u1, res, changed) ∧
      (∀ (j : Nat) (c : NamespaceCondition), old.length ≤ j → res[j]? = some c →
        c.Status = ConditionTrue) ∧
      (∀ (j : Nat) (c : NamespaceCondition), res[j]? = some c →
        c.Status = ConditionFalse →
          old[j]? = some c ∨
          ∃ o : NamespaceCondition, old[j]? = some o ∧ o.Status ≠ ConditionFalse ∧
            o.Type_ ∈ conditionTypes ∧ (∀ n ∈ u1.newConditions, n.Type_ ≠ o.Type_) ∧
            c = clearedCondition (now o.Type_) o.Type_ o) := by
  rw [Update_eq]
  have hstatus : ∀ c ∈ (withContentCondition now1 now2
      (runReports calls freshUpdater)).newConditions, c.Status = ConditionTrue :=
    fun c hc => withContentCondition_fresh_status hc
  generalize withContentCondition now1 now2 (runReports calls freshUpdater) = u1 at hstatus ⊢
  obtain ⟨⟨res, changed⟩, hr⟩ :=
    updateConditionsLoop_total now u1.newConditions conditionTypes (old, false)
  have hr' : updateConditions now old u1.newConditions = some (res, changed) := hr
  have hTF : ConditionTrue ≠ ConditionFalse := by decide
  have happ : ∀ (j : Nat) (c : NamespaceCondition), old.length ≤ j → res[j]? = some c →
      c.Status = ConditionTrue := fun j c hj hc =>
    hstatus c (updateConditionsLoop_appended conditionTypes_nodup hr hj hc).1
  refine ⟨u1, res, changed, by simp only [hr', Option.some_bind], happ, ?_⟩
  intro j c hc hfalse
  by_cases hlt : j < old.length
  · rcases updateConditionsLoop_entry conditionTypes_nodup hr
        (List.getElem?_eq_getElem hlt) with h | ⟨hm, hn, hs, h⟩ | ⟨-, k, n, -, hnk, h⟩
    · left
      rw [List.getElem?_eq_getElem hlt, ← hc]
      exact h.symm
    · right
      refine ⟨old[j], List.getElem?_eq_getElem hlt, hs, hm, getCondition_eq_none.1 hn, ?_⟩
      have h' : res[j]? = some (clearedCondition (now old[j].Type_) old[j].Type_ old[j]) := h
      rw [hc] at h'
      exact Option.some.inj h'
    · exfalso
      have h' : res[j]? = some (overwrittenCondition (now old[j].Type_) old[j] n) := h
      rw [hc] at h'
      have hcn : c.Status = n.Status := by
        rw [Option.some.inj h']
        rfl
      have hnT := hstatus n (List.getElem?_mem hnk)
      rw [hcn, hnT] at hfalse
      exact hTF hfalse
  · exfalso
    have := happ j c (Nat.le_of_not_lt hlt) hc
    rw [this] at hfalse
    exact hTF hfalse

/-- Claim C19. The merger cannot fail: for every old list and every new list,
`updateConditions` returns a result, so no nil pointer is read or written on any path; so
does every single run of its loop body, on any state and for any type; and each managed
type is a key of the table of OK messages and of the table of OK reasons. -/
theorem merger_cannot_fail (now : NamespaceConditionType → Time)
    (old new : List NamespaceCondition) :
    (∃ res changed, updateConditions now old new = some (res, changed)) ∧
    (∀ (clock : Time) (t : NamespaceConditionType) (st : List NamespaceCondition × Bool),
      ∃ r, updateConditionsBody clock new t st = some r) ∧
    ∀ ct ∈ conditionTypes,
      (∃ m, okMessages.lookup ct = some m ∧ mapIndex okMessages ct = m) ∧
      (∃ r, okReasons.lookup ct = some r ∧ mapIndex okReasons ct = r) := by
  refine ⟨?_, ?_, ?_⟩
  · obtain ⟨⟨res, changed⟩, hr⟩ :=
      updateConditionsLoop_total now new conditionTypes (old, false)
    exact ⟨res, changed, hr⟩
  · intro clock t st
    obtain ⟨r, hr, -⟩ := updateConditionsBody_path clock new t st.1 st.2
    exact ⟨r, hr⟩
  · intro ct hct
    simp only [conditionTypes, List.mem_cons, List.mem_singleton, List.not_mem_nil,
      or_false] at hct
    rcases hct with rfl | rfl | rfl
    · exact ⟨⟨"All resources successfully discovered", by decide, by decide⟩,
        ⟨"ResourcesDiscovered", by decide, by decide⟩⟩
    · exact ⟨⟨"All legacy kube types successfully parsed", by decide, by decide⟩,
        ⟨"ParsedGroupVersions", by decide, by decide⟩⟩
    · exact ⟨⟨"All content successfully deleted", by decide, by decide⟩,
        ⟨"ContentDeleted", by decide, by decide⟩⟩

/-- Claim C20. `Update` is re-entrant on one builder: for every sequence of report calls
on a fresh builder and every namespace, a second call of `Update` right after the first,
at any later clock readings, returns `false`, leaves the namespace's list as the first
call left it, and leaves the builder as it was; the derived list holds exactly one content
condition when at least one content error was reported, and none otherwise. -/
theorem update_reentrant (now1 now2 later1 later2 : Time)
    (now later : NamespaceConditionType → Time) (calls : List Report)
    (old : List NamespaceCondition) :
    ∃ u1 res changed,
      Update now1 now2 now (runReports calls freshUpdater) old = some (u1, res, changed) ∧
      Update later1 later2 later u1 res = some (u1, res, false) ∧
      countType u1.newConditions NamespaceDeletionContentFailure =
        if calls.any Report.isDeleteContentErr = true then 1 else 0 := by
  obtain ⟨⟨res, changed⟩, hr⟩ := updateConditionsLoop_total now
    (withContentCondition now1 now2 (runReports calls freshUpdater)).newConditions
    conditionTypes (old, false)
  have hr' : updateConditions now old
      (withContentCondition now1 now2 (runReports calls freshUpdater)).newConditions =
        some (res, changed) := hr
  refine ⟨withContentCondition now1 now2 (runReports calls freshUpdater), res, changed,
    ?_, ?_, ?_⟩
  · rw [Update_eq]
    simp only [hr', Option.some_bind]
  · rw [Update_eq, withContentCondition_idem]
    have h2 : updateConditions later res
        (withContentCondition now1 now2 (runReports calls freshUpdater)).newConditions =
          some (res, false) :=
      updateConditionsLoop_of_settled later false
        fun t ht => updateConditionsLoop_settles hr (Or.inl ht)
    simp only [h2, Option.some_bind]
  · obtain ⟨hnc, -⟩ := withContentCondition_fresh now1 now2 calls
    obtain ⟨-, -, hc, hlen⟩ := runReports_fresh_count calls
    rw [hnc, countType_append, hc]
    cases hm : makeDeleteContentCondition now1 now2
        (runReports calls freshUpdater).deleteContentErrors with
    | none =>
      have hnil := (makeDeleteContentCondition_eq_none _ _ _).1 hm
      rw [hnil] at hlen
      have hany : calls.any Report.isDeleteContentErr = false := by
        rw [List.any_eq_false]
        intro call hcall
        have := (List.countP_eq_zero.1 hlen.symm) call hcall
        simpa using this
      simp [hany, countType]
    | some c =>
      have hty := (makeDeleteContentCondition_spec hm).1
      have hne : (runReports calls freshUpdater).deleteContentErrors ≠ [] := by
        intro he
        rw [(makeDeleteContentCondition_eq_none now1 now2 _).2 he] at hm
        cases hm
      have hpos : 0 < calls.countP Report.isDeleteContentErr := by
        rw [← hlen]
        exact List.length_pos.2 hne
      obtain ⟨call, hcall, hp⟩ := List.countP_pos_iff.1 hpos
      have hany : calls.any Report.isDeleteContentErr = true :=
        List.any_eq_true.2 ⟨call, hcall, hp⟩
      simp [hany, countType, hty]

end Deletion
